import Mathlib

/-!
Verification of the Lucro Certo transaction-ledger core (src/src/app.py).

The embedding translates the ledger record shape, the inventory valuation
engine (get_inventory_dataframe), the ledger-access normalization
(save_transaction and the Cosmos upsert/delete primitives), the bulk rename
(update_product_name), and the sale/waste cascade builders into pure Lean
functions.  A persisted record is modelled as a structure of optional
fields: an absent dictionary key is represented by the value none.

Two views of the valuation loop are developed.  The exact-rational layer
(stepTx, get_inventory_dataframe) reads each field with the get semantics of
the underlying record and models all arithmetic over ℚ; it is exact on
well-formed ledgers, where every processed row carries its description and
numeric keys.  The DataFrame layer (colCtx, numCell, coercePd, stepPd,
get_inventory_dataframe_pd) additionally models what pd.DataFrame makes of a
heterogeneous record list: a missing key is materialized as NaN whenever the
column exists in the frame, a None value becomes NaN in a numeric-dtype
column, NaN propagates through the arithmetic (modelled by the value type PF
with the IEEE special values), a NaN quantity passes the nonzero row filter,
and a NaN item name makes the startswith call raise.  The float() string
conversion is modelled by pyFloat?, including signs, underscores, exponent
forms and the inf/nan spellings, with finite values idealized as exact
rationals.
-/

namespace LucroCerto

/-- A Python field value as it can appear in a qty or total slot:
the Python value None, a numeric value, or a raw string. -/
inductive PyVal where
  | vnone
  | vnum (q : ℚ)
  | vstr (s : String)
deriving DecidableEq

/-- Whitespace test used by the Python str.strip model. -/
def isWS (c : Char) : Bool :=
  c = ' ' || c = '\t' || c = '\n' || c = '\r'

/-- Python str.strip(): whitespace removed from both ends. -/
def strStrip (s : String) : String :=
  ⟨((s.data.dropWhile isWS).reverse.dropWhile isWS).reverse⟩

/-- Python str.upper() on the ASCII names used by the app: character-wise
upper-casing. -/
def strUpper (s : String) : String :=
  ⟨s.data.map Char.toUpper⟩

/-- Python str.startswith(). -/
def strStarts (s pre : String) : Bool :=
  List.isPrefixOf pre.data s.data

/-- Digit list to natural number, most significant first. -/
def digitsVal (cs : List Char) : ℕ :=
  cs.foldl (fun a c => a * 10 + (c.toNat - 48)) 0

/-- A Python float value: a finite value idealized as an exact rational,
the two infinities, or NaN. -/
inductive PF where
  | fin (q : ℚ)
  | pinf
  | ninf
  | nan
deriving DecidableEq

/-- A maximal run of digit-or-underscore characters, and the remainder. -/
def duSpan (cs : List Char) : List Char × List Char :=
  (cs.takeWhile (fun c => c.isDigit || c = '_'),
   cs.dropWhile (fun c => c.isDigit || c = '_'))

/-- In a digit-or-underscore run, no underscore is last or doubled. -/
def noDDUnd : List Char → Bool
  | [] => true
  | ['_'] => false
  | '_' :: '_' :: _ => false
  | _ :: rest => noDDUnd rest

/-- A valid digit group of the float() grammar: nonempty, starting with a
digit, every underscore sitting between two digits (as in 1_000). -/
def duValid (cs : List Char) : Bool :=
  match cs with
  | [] => false
  | c :: _ => c.isDigit && noDDUnd cs

/-- The digits of a group, underscores dropped. -/
def duDigits (cs : List Char) : List Char :=
  cs.filter (fun c => c.isDigit)

/-- The exponent tail of the float() grammar: an optional sign followed by a
digit group, with nothing allowed after it. -/
def parseExpPart (cs : List Char) : Option ℤ :=
  let sb : Bool × List Char :=
    match cs with
    | '-' :: rest => (true, rest)
    | '+' :: rest => (false, rest)
    | _ => (false, cs)
  let g := duSpan sb.2
  if duValid g.1 && g.2 = [] then
    some (if sb.1 then -(digitsVal (duDigits g.1) : ℤ) else (digitsVal (duDigits g.1) : ℤ))
  else none

/-- The finite value of a parsed mantissa and exponent: the sign times
(intpart + fracpart / 10^fracdigits) times 10^exponent. -/
def mantVal (neg : Bool) (ip fp nF : ℕ) (ex : ℤ) : PF :=
  .fin ((if neg then (-1 : ℚ) else 1) * ((ip : ℚ) + (fp : ℚ) / ((10 : ℚ) ^ nF))
    * (10 : ℚ) ^ ex)

/-- Model of the Python float() conversion on strings: surrounding
whitespace stripped; an optional sign; the case-insensitive special forms
inf, infinity and nan; otherwise a decimal mantissa — digit groups that may
carry single underscores between digits, an optional dot, at least one digit
in all — with an optional e/E exponent.  Returns none exactly when
float(...) raises; finite results are idealized as exact rationals. -/
def pyFloat? (s : String) : Option PF :=
  let cs0 := (strStrip s).data
  let sb : Bool × List Char :=
    match cs0 with
    | '-' :: rest => (true, rest)
    | '+' :: rest => (false, rest)
    | _ => (false, cs0)
  let neg := sb.1
  let cs := sb.2
  let low := cs.map Char.toLower
  if low = ['i', 'n', 'f'] ∨ low = ['i', 'n', 'f', 'i', 'n', 'i', 't', 'y'] then
    some (if neg then .ninf else .pinf)
  else if low = ['n', 'a', 'n'] then some .nan
  else
    let gi := duSpan cs
    let ip := digitsVal (duDigits gi.1)
    match gi.2 with
    | [] => if duValid gi.1 then some (mantVal neg ip 0 0 0) else none
    | '.' :: r2 =>
      let gf := duSpan r2
      let fp := digitsVal (duDigits gf.1)
      let nF := (duDigits gf.1).length
      if (gi.1 = [] || duValid gi.1) && (gf.1 = [] || duValid gf.1)
          && ((duDigits gi.1).length + nF ≠ 0) then
        match gf.2 with
        | [] => some (mantVal neg ip fp nF 0)
        | e :: r3 =>
          if e = 'e' ∨ e = 'E' then (parseExpPart r3).map (mantVal neg ip fp nF)
          else none
      else none
    | e :: r3 =>
      if (e = 'e' ∨ e = 'E') && duValid gi.1 then
        (parseExpPart r3).map (mantVal neg ip 0 0)
      else none

/-- The float() conversion restricted to the exact-rational layer: the
finite parses.  The special results inf and nan have no rational image and
are mapped to none here; their faithful treatment lives in the
DataFrame-level model below (numCell and coercePd). -/
def parseFloat? (s : String) : Option ℚ :=
  match pyFloat? s with
  | some (.fin q) => some q
  | _ => none

/-- Record-level coercion of a qty/total field:
float(row.get(key, 0) or 0) wrapped in try/except with 0 on failure, read
against the underlying record with plain dictionary semantics.  This is the
exact-rational idealization used for well-formed ledgers, where every row
carries its numeric keys; it is exact there.  The DataFrame materialization
the source actually iterates (a missing or None value can surface as NaN
when the column exists in the frame) is modelled separately below by
numCell and coercePd. -/
def toNumOr0 (v : Option PyVal) : ℚ :=
  match v with
  | none => 0
  | some .vnone => 0
  | some (.vnum q) => q
  | some (.vstr s) => if s = "" then 0 else (parseFloat? s).getD 0

/-- A persisted transaction record.  Each optional field models a dictionary
key that may be absent (none). -/
structure Tx where
  id : Option String := none
  type : Option String := none
  description : Option String := none
  product_name : Option String := none
  qty : Option PyVal := none
  total : Option PyVal := none
  unit_measure : Option String := none
  unit : Option String := none
  unit_price : Option PyVal := none
  related_sale_id : Option String := none
  related_waste_id : Option String := none
  user_id : Option String := none
  created_at : Option String := none
  last_updated : Option String := none
  waste_item : Option String := none
  waste_reason : Option String := none
  lost_revenue : Option PyVal := none
  date : Option String := none
deriving DecidableEq

/-- Python `a or b` on an optional string: falls through to the default on an
absent key, on None, and on the empty string. -/
def orDefault (v : Option String) (d : String) : String :=
  match v with
  | some s => if s = "" then d else s
  | none => d

/-- The item key used by the valuation:
row.get('description') or row.get('product_name') or 'Unknown', read
against the underlying record with plain dictionary semantics (the
exact-rational layer for well-formed ledgers, where every processed row
carries a description).  The column-aware reading, under which a missing
description in a materialized column surfaces as NaN and the subsequent
startswith call raises, is modelled below by itemNamePd. -/
def itemName (t : Tx) : String :=
  orDefault t.description (orDefault t.product_name "Unknown")

/-- The display unit recorded at item creation:
row.get('unit_measure', row.get('unit', 'UN') or 'UN'). -/
def txUnit (t : Tx) : String :=
  match t.unit_measure with
  | some u => u
  | none =>
    match t.unit with
    | some u => if u = "" then "UN" else u
    | none => "UN"

/-- The eight transaction types admitted by the valuation filter
(source line 287). -/
def allowedTypes : List String :=
  ["compra", "venda", "desperdicio", "uso_receita", "uso_receita_negativo",
   "ajuste_manual", "venda_produto", "receita_produto"]

/-- The increasing types (source line 305). -/
def increasingTypes : List String := ["compra", "ajuste_manual"]

/-- The decreasing types (source line 308). -/
def decreasingTypes : List String :=
  ["venda", "venda_produto", "desperdicio", "uso_receita", "uso_receita_negativo"]

/-- True when the item key carries a sale or waste summary marker
(source line 284). -/
def isSummaryName (t : Tx) : Bool :=
  strStarts (itemName t) "VENDA:" || strStarts (itemName t) "DESP:"

/-- True when the transaction's type is one of the eight admitted types;
a missing type is not admitted. -/
def typeAllowed (t : Tx) : Bool :=
  match t.type with
  | some ty => allowedTypes.contains ty
  | none => false

/-- True for the increasing types. -/
def isIncr (t : Tx) : Bool :=
  match t.type with
  | some ty => increasingTypes.contains ty
  | none => false

/-- True for the decreasing types. -/
def isDecr (t : Tx) : Bool :=
  match t.type with
  | some ty => decreasingTypes.contains ty
  | none => false

/-- Per-item accumulator of the valuation loop:
estoque[item] = {'qtd', 'custo_total', 'preco_medio', 'unidade'}. -/
structure Acc where
  qtd : ℚ
  custo_total : ℚ
  preco_medio : ℚ
  unidade : String
deriving DecidableEq

/-- The estoque dictionary, in insertion order. -/
abbrev Estoque := List (String × Acc)

/-- Dictionary read: first entry with the key. -/
def getAcc : Estoque → String → Option Acc
  | [], _ => none
  | p :: rest, k => if p.1 = k then some p.2 else getAcc rest k

/-- Dictionary write at an existing key. -/
def setAcc : Estoque → String → Acc → Estoque
  | [], _, _ => []
  | p :: rest, k, a => (if p.1 = k then (p.1, a) else p) :: setAcc rest k a

/-- Increasing update (source lines 305-307): qtd and custo_total grow. -/
def incUpdate (a : Acc) (qtd total : ℚ) : Acc :=
  { a with qtd := a.qtd + qtd, custo_total := a.custo_total + total }

/-- Decreasing update (source lines 308-312): qtd shrinks, and custo_total
shrinks by qtd times the current average only when that average is positive. -/
def decUpdate (a : Acc) (qtd : ℚ) : Acc :=
  let a' := { a with qtd := a.qtd - qtd }
  if a'.preco_medio > 0 then
    { a' with custo_total := a'.custo_total - qtd * a'.preco_medio }
  else a'

/-- The average recomputation after each transaction (source lines 315-323):
recompute when qtd is positive, otherwise retain the held average. -/
def recomputeAvg (a : Acc) : Acc :=
  if a.qtd > 0 then { a with preco_medio := a.custo_total / a.qtd } else a

/-- One iteration of the valuation loop of get_inventory_dataframe
(source lines 277-323). -/
def stepTx (est : Estoque) (t : Tx) : Estoque :=
  if isSummaryName t then est
  else if !typeAllowed t then est
  else
    let item := itemName t
    let qtd := toNumOr0 t.qty
    let total := toNumOr0 t.total
    let est1 := if (getAcc est item).isSome then est
                else est ++ [(item, ⟨0, 0, 0, txUnit t⟩)]
    let a0 := (getAcc est1 item).getD ⟨0, 0, 0, txUnit t⟩
    let a1 := if isIncr t then incUpdate a0 qtd total
              else if isDecr t then decUpdate a0 qtd
              else a0
    setAcc est1 item (recomputeAvg a1)

/-- The estoque accumulated over a transaction list. -/
def estoqueOf (transactions : List Tx) : Estoque :=
  transactions.foldl stepTx []

/-- One output row of the inventory DataFrame. -/
structure InvRow where
  ingrediente : String
  unidade : String
  qtd_em_estoque : ℚ
  preco_medio : ℚ
  valor_total : ℚ
deriving DecidableEq

/-- The inventory valuation (source lines 252-340): fold the loop over the
transaction list, then emit one row per item, keeping zero-quantity items
only when include_zero_stock is set.  Valor Total is qtd times preco_medio
(source line 333). -/
def get_inventory_dataframe (transactions : List Tx) (include_zero_stock : Bool) : List InvRow :=
  (estoqueOf transactions).filterMap (fun p =>
    if include_zero_stock = true ∨ p.2.qtd ≠ 0 then
      some ⟨p.1, p.2.unidade, p.2.qtd, p.2.preco_medio, p.2.qtd * p.2.preco_medio⟩
    else none)

/-- Quantity held by the estoque at a key, 0 when the key is absent. -/
def qtdOf (est : Estoque) (k : String) : ℚ :=
  match getAcc est k with
  | some a => a.qtd
  | none => 0

/-- Accumulated cost held by the estoque at a key, 0 when absent. -/
def custoOf (est : Estoque) (k : String) : ℚ :=
  match getAcc est k with
  | some a => a.custo_total
  | none => 0

/-- Average cost held by the estoque at a key, 0 when absent. -/
def precoOf (est : Estoque) (k : String) : ℚ :=
  match getAcc est k with
  | some a => a.preco_medio
  | none => 0

/-- True when the transaction is processed by the valuation loop under the
key k: not a summary marker, type admitted, and item key equal to k. -/
def affects (k : String) (t : Tx) : Bool :=
  !isSummaryName t && typeAllowed t && (itemName t == k)

/-- The signed quantity contribution of one processed transaction. -/
def qtyDelta (t : Tx) : ℚ :=
  if isIncr t then toNumOr0 t.qty
  else if isDecr t then -toNumOr0 t.qty
  else 0

/-- The accumulator discipline maintained by the loop: whenever qtd is
positive the held average equals custo_total / qtd. -/
def invOk (a : Acc) : Prop :=
  a.qtd > 0 → a.preco_medio = a.custo_total / a.qtd

/-- The signed quantity contributed to key k by a transaction list. -/
def sumQty (k : String) : List Tx → ℚ
  | [] => 0
  | t :: rest => (if affects k t = true then qtyDelta t else 0) + sumQty k rest

/-- The raw total contributed to key k by a transaction list. -/
def sumTot (k : String) : List Tx → ℚ
  | [] => 0
  | t :: rest => (if affects k t = true then toNumOr0 t.total else 0) + sumTot k rest

/-- save_transaction (source lines 130-153) as a pure record transform,
parameterized by the clock readings the source takes (the microsecond
timestamp used for the generated id, and the UTC ISO timestamp): generate id
and created_at when the record has no id, stamp user_id, refresh
last_updated, and normalize description to strip().upper() when present. -/
def save_transaction (now_micros : ℕ) (now_iso : String) (transaction_data : Tx)
    (user_id : String) : Tx :=
  let t1 := if transaction_data.id = none then
      { transaction_data with id := some (toString now_micros), created_at := some now_iso }
    else transaction_data
  let t2 := { t1 with user_id := some user_id, last_updated := some now_iso }
  match t2.description with
  | some d => { t2 with description := some (strUpper (strStrip d)) }
  | none => t2

/-- The store's upsert_item in one owner partition: full replace of the
record carrying the same id when one is stored, insert otherwise. -/
def upsert_item (store : List Tx) (t : Tx) : List Tx :=
  if store.any (fun s => decide (s.id = t.id)) then
    store.map (fun s => if s.id = t.id then t else s)
  else store ++ [t]

/-- delete_transaction (source lines 232-249): point delete by id within the
owner partition. -/
def delete_transaction (store : List Tx) (item_id : String) : List Tx :=
  store.filter (fun t => decide (t.id ≠ some item_id))

/-- The sale-deletion flow (source lines 1124-1135): collect the ids of the
transactions whose related_sale_id equals the sale's id, delete each of
those, then delete the sale record itself. -/
def delete_sale_flow (store : List Tx) (sale_id : String) : List Tx :=
  let related_ids :=
    (store.filter (fun t => decide (t.related_sale_id = some sale_id))).filterMap (fun t => t.id)
  delete_transaction (related_ids.foldl delete_transaction store) sale_id

/-- True when update_product_name skips the record (source line 191): recipe
and sale-of-product records are not renamed. -/
def renameSkip (t : Tx) : Bool :=
  match t.type with
  | some ty => ty == "receita_produto" || ty == "venda_produto"
  | none => false

/-- True when update_product_name rewrites the record: not skipped, and its
description is one of the alias names (source line 193). -/
def renameHit (old_names : List String) (t : Tx) : Bool :=
  !renameSkip t &&
    (match t.description with
     | some d => old_names.contains d
     | none => false)

/-- The in-place rewrite performed on a hit (source lines 194-195):
description becomes the canonical name strip().upper(), unit_measure becomes
the canonical unit, everything else is untouched. -/
def rewriteTx (new_name new_unit : String) (t : Tx) : Tx :=
  { t with description := some (strUpper (strStrip new_name)),
           unit_measure := some new_unit }

/-- One iteration of the update_product_name loop: on a hit, upsert the
rewritten record into the store and count it. -/
def rename_step (old_names : List String) (new_name new_unit : String)
    (acc : List Tx × ℕ) (t : Tx) : List Tx × ℕ :=
  if renameHit old_names t then
    (upsert_item acc.1 (rewriteTx new_name new_unit t), acc.2 + 1)
  else acc

/-- update_product_name (source lines 172-198): iterate over the fetched
transaction list, upserting a rewrite of every hit, and return the updated
store together with the count of rewritten records. -/
def update_product_name (store : List Tx) (old_names : List String)
    (new_name new_unit : String) : List Tx × ℕ :=
  store.foldl (rename_step old_names new_name new_unit) (store, 0)

/-- A stored recipe ingredient (element of a receita_produto record's
ingredients list). -/
structure Ingredient where
  name : String
  qtd_real : ℚ
  unit_db : String
  cost : ℚ
deriving DecidableEq

/-- The recipe fields the sale and waste flows read from a receita_produto
record. -/
structure Recipe where
  id : String
  description : String
  ingredients : List Ingredient
  total_cost : ℚ
  profit_margin : ℚ
  sale_price : ℚ
deriving DecidableEq

/-- The per-ingredient usage records a sale cascade writes (source lines
1090-1100): one record per recipe ingredient with qty = qtd_real times the
quantity sold, type uso_receita, or uso_receita_negativo when the item's
current stock is non-positive, tagged with the sale's id. -/
def sale_ingredient_txs (prod : Recipe) (qtd_v : ℚ) (stock : String → ℚ)
    (sale_id now : String) : List Tx :=
  prod.ingredients.map (fun ing =>
    { type := some (if stock ing.name ≤ 0 then "uso_receita_negativo" else "uso_receita"),
      description := some ing.name,
      qty := some (.vnum (ing.qtd_real * qtd_v)),
      unit_measure := some ing.unit_db,
      total := some (.vnum 0),
      related_sale_id := some sale_id,
      date := some now })

/-- The summary waste record (source lines 1166-1168). -/
def waste_record (wn : String) (qtd wc wr : ℚ) (reason now : String) : Tx :=
  { type := some "desperdicio", description := some ("Desp: " ++ wn),
    waste_item := some wn, waste_reason := some reason,
    qty := some (.vnum qtd), total := some (.vnum wc),
    lost_revenue := some (.vnum wr), date := some now }

/-- The summary record for waste of a finished recipe product (source lines
1158-1160 and 1166-1168): qty is the constant 1, total is
recipe.total_cost times the quantity lost, lost_revenue is
recipe.sale_price times the quantity lost. -/
def waste_product_summary (prod : Recipe) (qp : ℚ) (reason now : String) : Tx :=
  waste_record prod.description 1 (prod.total_cost * qp) (prod.sale_price * qp) reason now

/-- The summary record for waste of a raw stock item (source lines 1147-1149
and 1166-1168): total is the quantity lost times the item's current average
cost read from the inventory valuation. -/
def waste_stock_summary (transactions : List Tx) (isel : String) (qw : ℚ)
    (reason now : String) : Tx :=
  waste_record isel qw (qw * precoOf (estoqueOf transactions) isel) 0 reason now

/-- The per-ingredient records the waste cascade writes for a finished
product (source lines 1170-1176): one record per recipe ingredient with
qty = qtd_real times the quantity lost, type desperdicio, tagged with the
summary record's id through related_waste_id. -/
def waste_ingredient_txs (prod : Recipe) (qp : ℚ) (waste_id now : String) : List Tx :=
  prod.ingredients.map (fun ing =>
    { type := some "desperdicio", description := some ing.name,
      qty := some (.vnum (ing.qtd_real * qp)),
      unit_measure := some ing.unit_db,
      total := some (.vnum 0),
      related_waste_id := some waste_id,
      date := some now })

/-! The DataFrame layer: what pd.DataFrame(transactions) makes of the
record list before the loop reads it.  A column exists in the frame when
some record carries the key; a record missing the key then shows NaN in
that column.  A None value shows as NaN in a numeric-dtype column (one
holding at least one number and no string) and stays None in an object
column.  NaN is truthy, propagates through arithmetic, and compares
unequal to 0; calling startswith on a NaN item raises. -/

/-- What a cell of a numeric-candidate column holds for one record: a
number, a raw string, NaN, None, or nothing at all (the key absent and the
column absent from the whole frame, so row.get falls to its default). -/
inductive PdCell where
  | cnum (q : ℚ)
  | cstr (s : String)
  | cnan
  | cnone
  | cmissing
deriving DecidableEq

/-- What a cell of a string-valued column holds: a string, NaN, or nothing
(key absent and column absent from the frame). -/
inductive PdStr where
  | sstr (s : String)
  | snan
  | snone
deriving DecidableEq

/-- True when the field holds a number. -/
def hasNum (v : Option PyVal) : Bool :=
  match v with
  | some (.vnum _) => true
  | _ => false

/-- True when the field holds a string. -/
def hasStr (v : Option PyVal) : Bool :=
  match v with
  | some (.vstr _) => true
  | _ => false

/-- Numeric dtype inference for one column of the frame: pandas infers a
numeric dtype (converting present None values to NaN) exactly when the
column holds at least one number and no string. -/
def numericCol (get : Tx → Option PyVal) (txs : List Tx) : Bool :=
  txs.any (fun u => hasNum (get u)) && !txs.any (fun u => hasStr (get u))

/-- The column shape of the frame built from the transaction list: for each
field read by the loop, whether its column exists (some record carries the
key), and for qty/total whether the column has a numeric dtype. -/
structure ColCtx where
  qty_has : Bool
  qty_numeric : Bool
  total_has : Bool
  total_numeric : Bool
  desc_has : Bool
  pname_has : Bool
  um_has : Bool
  unit_has : Bool
deriving DecidableEq

/-- The column shape of pd.DataFrame(transactions). -/
def colCtx (txs : List Tx) : ColCtx :=
  { qty_has := txs.any (fun u => u.qty.isSome)
    qty_numeric := numericCol (fun u => u.qty) txs
    total_has := txs.any (fun u => u.total.isSome)
    total_numeric := numericCol (fun u => u.total) txs
    desc_has := txs.any (fun u => u.description.isSome)
    pname_has := txs.any (fun u => u.product_name.isSome)
    um_has := txs.any (fun u => u.unit_measure.isSome)
    unit_has := txs.any (fun u => u.unit.isSome) }

/-- The cell a numeric-candidate column shows for one record, given whether
the column exists and whether its dtype is numeric. -/
def numCell (has numeric : Bool) (v : Option PyVal) : PdCell :=
  match v with
  | some (.vnum q) => .cnum q
  | some (.vstr s) => .cstr s
  | some .vnone => if numeric then .cnan else .cnone
  | none => if has then .cnan else .cmissing

/-- The cell a string-valued column shows for one record. -/
def strCell (has : Bool) (v : Option String) : PdStr :=
  match v with
  | some s => .sstr s
  | none => if has then .snan else .snone

/-- The coercion float(cell or 0) under the source's try/except, on the
materialized cell: an absent column defaults to 0; None and the empty
string are falsy, giving float(0); NaN is truthy and float(NaN) is NaN; a
number passes through; a nonempty string goes through float(), with the
except arm giving 0 when it raises. -/
def coercePd (c : PdCell) : PF :=
  match c with
  | .cmissing => .fin 0
  | .cnone => .fin 0
  | .cnan => .nan
  | .cnum q => .fin q
  | .cstr s => if s = "" then .fin 0 else (pyFloat? s).getD (.fin 0)

/-- The product_name-or-Unknown fallback of the item expression.  A NaN cell
is truthy, so the chain stops on it and the subsequent startswith call
raises (error); an empty string or an absent column falls through to the
literal Unknown. -/
def itemFallback (ctx : ColCtx) (t : Tx) : Except Unit String :=
  match strCell ctx.pname_has t.product_name with
  | .snan => .error ()
  | .sstr s => .ok (if s = "" then "Unknown" else s)
  | .snone => .ok "Unknown"

/-- The item expression row.get('description') or row.get('product_name')
or 'Unknown' on the materialized row, with an error when the chain stops on
a NaN cell, on which item.startswith raises AttributeError. -/
def itemNamePd (ctx : ColCtx) (t : Tx) : Except Unit String :=
  match strCell ctx.desc_has t.description with
  | .snan => .error ()
  | .sstr s => if s = "" then itemFallback ctx t else .ok s
  | .snone => itemFallback ctx t

/-- True when the item expression resolves without raising. -/
def itemResolves (ctx : ColCtx) (t : Tx) : Bool :=
  match itemNamePd ctx t with
  | .ok _ => true
  | .error _ => false

/-- The display unit on the materialized row:
row.get('unit_measure', row.get('unit', 'UN') or 'UN').  The outer get
returns the cell (possibly NaN) whenever the column exists; otherwise the
default expression runs, where the `or` turns an empty string into UN but
lets a NaN cell through. -/
def unitPd (ctx : ColCtx) (t : Tx) : PdStr :=
  match strCell ctx.um_has t.unit_measure with
  | .snan => .snan
  | .sstr s => .sstr s
  | .snone =>
    match strCell ctx.unit_has t.unit with
    | .snan => .snan
    | .sstr s => if s = "" then .sstr "UN" else .sstr s
    | .snone => .sstr "UN"

/-- IEEE negation on Python float values. -/
def pfNeg (a : PF) : PF :=
  match a with
  | .fin q => .fin (-q)
  | .pinf => .ninf
  | .ninf => .pinf
  | .nan => .nan

/-- IEEE addition on Python float values: NaN absorbs, opposite infinities
give NaN, finite arithmetic is exact. -/
def pfAdd : PF → PF → PF
  | .nan, _ => .nan
  | _, .nan => .nan
  | .fin a, .fin b => .fin (a + b)
  | .fin _, .pinf => .pinf
  | .fin _, .ninf => .ninf
  | .pinf, .fin _ => .pinf
  | .ninf, .fin _ => .ninf
  | .pinf, .pinf => .pinf
  | .ninf, .ninf => .ninf
  | .pinf, .ninf => .nan
  | .ninf, .pinf => .nan

/-- IEEE subtraction: addition of the negation. -/
def pfSub (a b : PF) : PF :=
  pfAdd a (pfNeg b)

/-- IEEE multiplication: NaN absorbs, zero times an infinity is NaN,
otherwise infinities follow the signs. -/
def pfMul : PF → PF → PF
  | .nan, _ => .nan
  | _, .nan => .nan
  | .fin a, .fin b => .fin (a * b)
  | .fin a, .pinf => if a = 0 then .nan else if a > 0 then .pinf else .ninf
  | .fin a, .ninf => if a = 0 then .nan else if a > 0 then .ninf else .pinf
  | .pinf, .fin b => if b = 0 then .nan else if b > 0 then .pinf else .ninf
  | .ninf, .fin b => if b = 0 then .nan else if b > 0 then .ninf else .pinf
  | .pinf, .pinf => .pinf
  | .pinf, .ninf => .ninf
  | .ninf, .pinf => .ninf
  | .ninf, .ninf => .pinf

/-- IEEE division for a divisor that is not the exact zero (the only case
Python raises on; the caller models the try/except): NaN absorbs, a finite
value over an infinity is 0, an infinity over an infinity is NaN. -/
def pfDiv : PF → PF → PF
  | .nan, _ => .nan
  | _, .nan => .nan
  | .fin a, .fin b => .fin (a / b)
  | .fin _, .pinf => .fin 0
  | .fin _, .ninf => .fin 0
  | .pinf, .fin b => if b ≥ 0 then .pinf else .ninf
  | .ninf, .fin b => if b ≥ 0 then .ninf else .pinf
  | .pinf, .pinf => .nan
  | .pinf, .ninf => .nan
  | .ninf, .pinf => .nan
  | .ninf, .ninf => .nan

/-- The division of the source's try block: ZeroDivisionError is raised
exactly on an exact-zero divisor, and the except arm then gives 0. -/
def pfDivTry (a b : PF) : PF :=
  if b = .fin 0 then .fin 0 else pfDiv a b

/-- The comparison x > 0 on Python float values: false on NaN. -/
def pfGtZero (a : PF) : Bool :=
  match a with
  | .fin q => decide (0 < q)
  | .pinf => true
  | .ninf => false
  | .nan => false

/-- The comparison x != 0 on Python float values: true on NaN. -/
def pfNeZero (a : PF) : Bool :=
  match a with
  | .fin q => decide (q ≠ 0)
  | .pinf => true
  | .ninf => true
  | .nan => true

/-- Per-item accumulator of the DataFrame-layer loop. -/
structure AccPd where
  qtd : PF
  custo_total : PF
  preco_medio : PF
  unidade : PdStr
deriving DecidableEq

/-- The DataFrame-layer estoque dictionary, in insertion order. -/
abbrev EstoquePd := List (String × AccPd)

/-- Dictionary read: first entry with the key. -/
def getAccPd : EstoquePd → String → Option AccPd
  | [], _ => none
  | p :: rest, k => if p.1 = k then some p.2 else getAccPd rest k

/-- Dictionary write at an existing key. -/
def setAccPd : EstoquePd → String → AccPd → EstoquePd
  | [], _, _ => []
  | p :: rest, k, a => (if p.1 = k then (p.1, a) else p) :: setAccPd rest k a

/-- One iteration of the valuation loop on the materialized row, after the
item expression has resolved to the string item: the summary-prefix and
type filters, the numeric coercions against the frame's column shape, and
the accumulator updates over IEEE float values. -/
def stepPd (ctx : ColCtx) (item : String) (t : Tx) (est : EstoquePd) : EstoquePd :=
  if strStarts item "VENDA:" || strStarts item "DESP:" then est
  else if !typeAllowed t then est
  else
    let qtd := coercePd (numCell ctx.qty_has ctx.qty_numeric t.qty)
    let total := coercePd (numCell ctx.total_has ctx.total_numeric t.total)
    let um := unitPd ctx t
    let est1 := if (getAccPd est item).isSome then est
                else est ++ [(item, ⟨.fin 0, .fin 0, .fin 0, um⟩)]
    let a0 := (getAccPd est1 item).getD ⟨.fin 0, .fin 0, .fin 0, um⟩
    let a1 :=
      if isIncr t then
        { a0 with qtd := pfAdd a0.qtd qtd, custo_total := pfAdd a0.custo_total total }
      else if isDecr t then
        let a2 := { a0 with qtd := pfSub a0.qtd qtd }
        if pfGtZero a2.preco_medio then
          { a2 with custo_total := pfSub a2.custo_total (pfMul qtd a2.preco_medio) }
        else a2
      else a0
    let a3 := if pfGtZero a1.qtd then
        { a1 with preco_medio := pfDivTry a1.custo_total a1.qtd }
      else a1
    setAccPd est1 item a3

/-- The loop over the materialized rows: each row first evaluates its item
expression, raising out of the whole valuation when that resolves to NaN,
and otherwise feeds one stepPd iteration. -/
def runPd (ctx : ColCtx) : List Tx → EstoquePd → Except Unit EstoquePd
  | [], est => .ok est
  | t :: rest, est =>
    match itemNamePd ctx t with
    | .error e => .error e
    | .ok item => runPd ctx rest (stepPd ctx item t est)

/-- One output row of the DataFrame-layer valuation. -/
structure RowPd where
  ingrediente : String
  unidade : PdStr
  qtd_em_estoque : PF
  preco_medio : PF
  valor_total : PF
deriving DecidableEq

/-- The inventory valuation on the materialized frame: run the loop, then
emit one row per item, keeping an item when include_zero_stock is set or
its quantity compares != 0 — which a NaN quantity does. -/
def get_inventory_dataframe_pd (transactions : List Tx) (include_zero_stock : Bool) :
    Except Unit (List RowPd) :=
  match runPd (colCtx transactions) transactions [] with
  | .error e => .error e
  | .ok est => .ok (est.filterMap (fun p =>
      if include_zero_stock || pfNeZero p.2.qtd then
        some ⟨p.1, p.2.unidade, p.2.qtd, p.2.preco_medio, pfMul p.2.qtd p.2.preco_medio⟩
      else none))

/-! Dictionary lemmas for the estoque association list. -/

theorem getAcc_setAcc_self (est : Estoque) (k : String) (a : Acc) :
    getAcc (setAcc est k a) k = (getAcc est k).map (fun _ => a) := by
  induction est with
  | nil => rfl
  | cons p rest ih =>
    by_cases h : p.1 = k
    · simp [setAcc, getAcc, h]
    · simp [setAcc, getAcc, h, ih]

theorem getAcc_setAcc_ne (est : Estoque) (k k' : String) (a : Acc) (h : k' ≠ k) :
    getAcc (setAcc est k a) k' = getAcc est k' := by
  have hkk : ¬(k = k') := fun hh => h hh.symm
  induction est with
  | nil => rfl
  | cons p rest ih =>
    by_cases hp : p.1 = k
    · simp [setAcc, getAcc, hp, hkk, h, ih]
    · by_cases hp' : p.1 = k'
      · simp [setAcc, getAcc, hp, hp', hkk, h, ih]
      · simp [setAcc, getAcc, hp, hp', hkk, h, ih]

theorem getAcc_append (est l : Estoque) (k : String) :
    getAcc (est ++ l) k =
      match getAcc est k with
      | some a => some a
      | none => getAcc l k := by
  induction est with
  | nil => rfl
  | cons p rest ih =>
    by_cases h : p.1 = k
    · simp [getAcc, h]
    · simp [getAcc, h, ih]

theorem getAcc_none_iff (est : Estoque) (k : String) :
    getAcc est k = none ↔ k ∉ est.map Prod.fst := by
  induction est with
  | nil => simp [getAcc]
  | cons p rest ih =>
    by_cases h : p.1 = k
    · simp [getAcc, h]
    · simp only [getAcc, List.map_cons, List.mem_cons]
      rw [if_neg h, ih]
      constructor
      · intro hr hm
        rcases hm with he | hm
        · exact h he.symm
        · exact hr hm
      · intro hh hm
        exact hh (Or.inr hm)

theorem keys_setAcc (est : Estoque) (k : String) (a : Acc) :
    (setAcc est k a).map Prod.fst = est.map Prod.fst := by
  induction est with
  | nil => rfl
  | cons p rest ih =>
    by_cases h : p.1 = k <;> simp [setAcc, h, ih]

theorem setAcc_absent (est : Estoque) (k : String) (a : Acc)
    (h : getAcc est k = none) : setAcc est k a = est := by
  induction est with
  | nil => rfl
  | cons p rest ih =>
    by_cases hp : p.1 = k
    · simp [getAcc, hp] at h
    · simp [getAcc, hp] at h
      simp [setAcc, hp, ih h]

theorem setAcc_self (est : Estoque) (k : String) (a : Acc)
    (hnd : (est.map Prod.fst).Nodup) (h : getAcc est k = some a) :
    setAcc est k a = est := by
  induction est with
  | nil => simp [getAcc] at h
  | cons p rest ih =>
    rw [List.map_cons, List.nodup_cons] at hnd
    by_cases hp : p.1 = k
    · simp only [getAcc, if_pos hp, Option.some.injEq] at h
      have habs : getAcc rest k = none := by
        rw [getAcc_none_iff, ← hp]
        exact hnd.1
      obtain ⟨p1, p2⟩ := p
      simp only at hp h
      subst hp
      subst h
      simp [setAcc, setAcc_absent rest p1 p2 habs]
    · simp only [getAcc, if_neg hp] at h
      simp [setAcc, hp, ih hnd.2 h]

/-! Structural lemmas for the valuation loop. -/

theorem stepTx_summary (est : Estoque) (t : Tx) (h : isSummaryName t = true) :
    stepTx est t = est := by
  simp [stepTx, h]

theorem stepTx_notAllowed (est : Estoque) (t : Tx) (h : typeAllowed t = false) :
    stepTx est t = est := by
  simp [stepTx, h]

theorem foldl_stepTx_append (l1 l2 : List Tx) (est : Estoque) :
    (l1 ++ l2).foldl stepTx est = l2.foldl stepTx (l1.foldl stepTx est) :=
  List.foldl_append stepTx est l1 l2

/-- C7.  Every transaction whose item key begins with the sale-summary
marker VENDA: or the waste-summary marker DESP: is discarded by the
valuation: deleting it from any position of the transaction list leaves the
inventory output unchanged, for both zero-stock modes. -/
theorem summary_records_carry_no_stock_effect (l1 l2 : List Tx) (t : Tx) (z : Bool)
    (h : isSummaryName t = true) :
    get_inventory_dataframe (l1 ++ t :: l2) z = get_inventory_dataframe (l1 ++ l2) z := by
  unfold get_inventory_dataframe estoqueOf
  rw [foldl_stepTx_append, foldl_stepTx_append, List.foldl_cons, stepTx_summary _ _ h]

/-- Witness for C7: the sale summary record the app writes is ignored by the
valuation. -/
theorem summary_records_carry_no_stock_effect_witness :
    isSummaryName { type := some "venda_produto", description := some "VENDA: BOLO",
                    qty := some (.vnum 3), total := some (.vnum 75) } = true
    ∧ get_inventory_dataframe
        [{ type := some "venda_produto", description := some "VENDA: BOLO",
           qty := some (.vnum 3), total := some (.vnum 75) }] true
      = get_inventory_dataframe [] true :=
  ⟨by decide,
   summary_records_carry_no_stock_effect [] []
     { type := some "venda_produto", description := some "VENDA: BOLO",
       qty := some (.vnum 3), total := some (.vnum 75) } true (by decide)⟩

/-- C2.  The milk scenario: two purchases of 1000 ml for 5.00 and 7.00, a
recipe usage of 200 ml and a waste of 100 ml yield, after each successive
transaction, quantity 1000 at average 0.005 worth 5.00, then 2000 at 0.006
worth 12.00, then 1800 at 0.006 worth 10.80, then 1700 at 0.006 worth
10.20. -/
theorem valuation_scenario_milk :
    get_inventory_dataframe
      [{ type := some "compra", description := some "LEITE", unit_measure := some "ML",
         qty := some (.vnum 1000), total := some (.vnum 5) }] false
      = [⟨"LEITE", "ML", 1000, 0.005, 5⟩]
    ∧ get_inventory_dataframe
      [{ type := some "compra", description := some "LEITE", unit_measure := some "ML",
         qty := some (.vnum 1000), total := some (.vnum 5) },
       { type := some "compra", description := some "LEITE", unit_measure := some "ML",
         qty := some (.vnum 1000), total := some (.vnum 7) }] false
      = [⟨"LEITE", "ML", 2000, 0.006, 12⟩]
    ∧ get_inventory_dataframe
      [{ type := some "compra", description := some "LEITE", unit_measure := some "ML",
         qty := some (.vnum 1000), total := some (.vnum 5) },
       { type := some "compra", description := some "LEITE", unit_measure := some "ML",
         qty := some (.vnum 1000), total := some (.vnum 7) },
       { type := some "uso_receita", description := some "LEITE",
         qty := some (.vnum 200), total := some (.vnum 0) }] false
      = [⟨"LEITE", "ML", 1800, 0.006, 10.80⟩]
    ∧ get_inventory_dataframe
      [{ type := some "compra", description := some "LEITE", unit_measure := some "ML",
         qty := some (.vnum 1000), total := some (.vnum 5) },
       { type := some "compra", description := some "LEITE", unit_measure := some "ML",
         qty := some (.vnum 1000), total := some (.vnum 7) },
       { type := some "uso_receita", description := some "LEITE",
         qty := some (.vnum 200), total := some (.vnum 0) },
       { type := some "desperdicio", description := some "LEITE",
         qty := some (.vnum 100), total := some (.vnum 0) }] false
      = [⟨"LEITE", "ML", 1700, 0.006, 10.20⟩] := by
  refine ⟨?_, ?_, ?_, ?_⟩ <;>
    norm_num +decide [get_inventory_dataframe, estoqueOf, stepTx, isSummaryName, itemName,
      orDefault, strStarts, typeAllowed, allowedTypes, toNumOr0, getAcc, setAcc, txUnit,
      isIncr, isDecr, increasingTypes, decreasingTypes, incUpdate, decUpdate, recomputeAvg,
      List.isPrefixOf, List.filterMap_cons, List.filterMap_nil]

/-! Ledger access: upsert and save. -/

theorem upsert_item_twice (store : List Tx) (r r' : Tx) (h : r'.id = r.id) :
    upsert_item (upsert_item store r) r' = upsert_item store r' := by
  unfold upsert_item
  simp only [h]
  by_cases hany : store.any (fun s => decide (s.id = r.id)) = true
  · obtain ⟨s₀, hs₀, hid₀⟩ := List.any_eq_true.mp hany
    rw [decide_eq_true_eq] at hid₀
    have hany2 : (store.map (fun s => if s.id = r.id then r else s)).any
        (fun s => decide (s.id = r.id)) = true := by
      apply List.any_eq_true.mpr
      exact ⟨r, List.mem_map.mpr ⟨s₀, hs₀, by rw [if_pos hid₀]⟩, by simp⟩
    rw [if_pos hany, if_pos hany, if_pos hany2, List.map_map]
    apply List.map_congr_left
    intro s _
    by_cases hid : s.id = r.id
    · simp [Function.comp, hid]
    · simp [Function.comp, hid]
  · have hall : ∀ s ∈ store, ¬(s.id = r.id) := by
      intro s hs hid
      exact hany (List.any_eq_true.mpr ⟨s, hs, by simp [hid]⟩)
    have hany2 : ((store ++ [r]).any (fun s => decide (s.id = r.id))) = true := by
      apply List.any_eq_true.mpr
      exact ⟨r, by simp, by simp⟩
    rw [if_neg hany, if_neg hany, if_pos hany2, List.map_append]
    have h1 : store.map (fun s => if s.id = r.id then r' else s) = store.map id := by
      apply List.map_congr_left
      intro s hs
      simp [hall s hs]
    rw [h1, List.map_id]
    simp

/-- C9.  save_transaction generates an id from the microsecond timestamp and
sets created_at exactly when the input has no id; an input that already has
an id keeps it and keeps its created_at; every call stamps user_id with the
owner and refreshes last_updated; a present description is replaced by its
trimmed upper-cased form; and upserting twice with the same id is the same
as upserting once with the final record (replace semantics). -/
theorem save_transaction_spec (now_micros : ℕ) (now_iso : String) (t : Tx) (user : String)
    (store : List Tx) (r r' : Tx) :
    (t.id = none →
        (save_transaction now_micros now_iso t user).id = some (toString now_micros)
        ∧ (save_transaction now_micros now_iso t user).created_at = some now_iso)
    ∧ (∀ i, t.id = some i →
        (save_transaction now_micros now_iso t user).id = some i
        ∧ (save_transaction now_micros now_iso t user).created_at = t.created_at)
    ∧ (save_transaction now_micros now_iso t user).user_id = some user
    ∧ (save_transaction now_micros now_iso t user).last_updated = some now_iso
    ∧ (save_transaction now_micros now_iso t user).description
        = t.description.map (fun d => strUpper (strStrip d))
    ∧ (r'.id = r.id → upsert_item (upsert_item store r) r' = upsert_item store r') := by
  refine ⟨?_, ?_, ?_, ?_, ?_, fun h => upsert_item_twice store r r' h⟩
  · intro hid
    cases hdesc : t.description <;> simp [save_transaction, hid, hdesc]
  · intro i hid
    cases hdesc : t.description <;> simp [save_transaction, hid, hdesc]
  · cases hid : t.id <;> cases hdesc : t.description <;> simp [save_transaction, hid, hdesc]
  · cases hid : t.id <;> cases hdesc : t.description <;> simp [save_transaction, hid, hdesc]
  · cases hid : t.id <;> cases hdesc : t.description <;> simp [save_transaction, hid, hdesc]

/-- Witness for C9 at a concrete record without id: the id is generated from
the timestamp, created_at is stamped, the description is normalized, and a
double upsert with one id equals the single upsert. -/
theorem save_transaction_spec_witness :
    (save_transaction 1712000000000000 "2024-04-01T00:00:00" { description := some " leite " } "ana@x").id
      = some "1712000000000000"
    ∧ (save_transaction 1712000000000000 "2024-04-01T00:00:00" { description := some " leite " } "ana@x").created_at
      = some "2024-04-01T00:00:00"
    ∧ (save_transaction 1712000000000000 "2024-04-01T00:00:00" { description := some " leite " } "ana@x").user_id
      = some "ana@x"
    ∧ (save_transaction 1712000000000000 "2024-04-01T00:00:00" { description := some " leite " } "ana@x").last_updated
      = some "2024-04-01T00:00:00"
    ∧ (save_transaction 1712000000000000 "2024-04-01T00:00:00" { description := some " leite " } "ana@x").description
      = some "LEITE"
    ∧ upsert_item (upsert_item [] { id := some "7" }) { id := some "7", type := some "compra" }
      = upsert_item [] { id := some "7", type := some "compra" } := by
  have h := save_transaction_spec 1712000000000000 "2024-04-01T00:00:00"
    { description := some " leite " } "ana@x" [] { id := some "7" }
    { id := some "7", type := some "compra" }
  refine ⟨(h.1 rfl).1, (h.1 rfl).2, h.2.2.1, h.2.2.2.1, ?_, h.2.2.2.2.2 rfl⟩
  rw [h.2.2.2.2.1]
  decide

/-! Deletion cascade. -/

theorem mem_delete_transaction (store : List Tx) (i : String) (t : Tx) :
    t ∈ delete_transaction store i ↔ t ∈ store ∧ t.id ≠ some i := by
  simp [delete_transaction, List.mem_filter]

theorem mem_foldl_delete (ids : List String) (store : List Tx) (t : Tx) :
    t ∈ ids.foldl delete_transaction store ↔ t ∈ store ∧ ∀ i ∈ ids, t.id ≠ some i := by
  induction ids generalizing store with
  | nil => simp
  | cons i rest ih =>
    rw [List.foldl_cons, ih, mem_delete_transaction]
    simp only [List.mem_cons]
    constructor
    · rintro ⟨⟨h1, h2⟩, h3⟩
      refine ⟨h1, fun j hj => ?_⟩
      rcases hj with hj | hj
      · rw [hj]; exact h2
      · exact h3 j hj
    · rintro ⟨h1, h2⟩
      exact ⟨⟨h1, h2 i (Or.inl rfl)⟩, fun j hj => h2 j (Or.inr hj)⟩

/-- C3.  The sale-deletion flow removes exactly the sale record and the
transactions whose related_sale_id equals the sale's id: assuming stored
records carry unique ids, a transaction survives the flow exactly when its
related_sale_id differs from the sale's id and its own id differs from the
sale's id, and survivors are unchanged (the flow only filters the store). -/
theorem sale_deletion_cascade_exact (store : List Tx) (sid : String)
    (hids : ∀ u ∈ store, u.id.isSome = true)
    (hnd : (store.map (fun u => u.id)).Nodup) (t : Tx) :
    t ∈ delete_sale_flow store sid
      ↔ t ∈ store ∧ t.related_sale_id ≠ some sid ∧ t.id ≠ some sid := by
  unfold delete_sale_flow
  rw [mem_delete_transaction, mem_foldl_delete]
  constructor
  · rintro ⟨⟨hmem, hforall⟩, hid⟩
    refine ⟨hmem, ?_, hid⟩
    intro hrel
    obtain ⟨i, hi⟩ := Option.isSome_iff_exists.mp (hids t hmem)
    have hcol : i ∈ (store.filter
        (fun u => decide (u.related_sale_id = some sid))).filterMap (fun u => u.id) := by
      apply List.mem_filterMap.mpr
      exact ⟨t, List.mem_filter.mpr ⟨hmem, by simp [hrel]⟩, hi⟩
    exact hforall i hcol hi
  · rintro ⟨hmem, hrel, hid⟩
    refine ⟨⟨hmem, ?_⟩, hid⟩
    intro i hi hidt
    obtain ⟨u, hu, huid⟩ := List.mem_filterMap.mp hi
    have humem : u ∈ store := (List.mem_filter.mp hu).1
    have hurel : u.related_sale_id = some sid := by
      have := (List.mem_filter.mp hu).2
      simpa using this
    have hut : u = t := List.inj_on_of_nodup_map hnd humem hmem (by rw [huid, hidt])
    rw [hut] at hurel
    exact hrel hurel

/-- Witness for C3: in a three-record store (sale summary, linked usage
record, unrelated purchase), the unrelated purchase survives the sale
deletion. -/
theorem sale_deletion_cascade_exact_witness :
    ({ id := some "o", type := some "compra", description := some "FARINHA" } : Tx)
      ∈ delete_sale_flow
          [{ id := some "s", type := some "venda_produto", description := some "VENDA: BOLO" },
           { id := some "u", type := some "uso_receita", description := some "FARINHA",
             related_sale_id := some "s" },
           { id := some "o", type := some "compra", description := some "FARINHA" }] "s" :=
  (sale_deletion_cascade_exact
      [{ id := some "s", type := some "venda_produto", description := some "VENDA: BOLO" },
       { id := some "u", type := some "uso_receita", description := some "FARINHA",
         related_sale_id := some "s" },
       { id := some "o", type := some "compra", description := some "FARINHA" }] "s"
      (by decide) (by decide)
      { id := some "o", type := some "compra", description := some "FARINHA" }).mpr
    ⟨by decide, by decide, by decide⟩

/-! The branches of the valuation loop. -/

theorem stepTx_present (est : Estoque) (t : Tx) (a : Acc)
    (hs : isSummaryName t = false) (hta : typeAllowed t = true)
    (hget : getAcc est (itemName t) = some a) :
    stepTx est t =
      setAcc est (itemName t)
        (recomputeAvg (if isIncr t = true then
            incUpdate a (toNumOr0 t.qty) (toNumOr0 t.total)
          else if isDecr t = true then decUpdate a (toNumOr0 t.qty)
          else a)) := by
  simp [stepTx, hs, hta, hget]

theorem stepTx_absent (est : Estoque) (t : Tx)
    (hs : isSummaryName t = false) (hta : typeAllowed t = true)
    (hget : getAcc est (itemName t) = none) :
    stepTx est t =
      setAcc (est ++ [(itemName t, ⟨0, 0, 0, txUnit t⟩)]) (itemName t)
        (recomputeAvg (if isIncr t = true then
            incUpdate ⟨0, 0, 0, txUnit t⟩ (toNumOr0 t.qty) (toNumOr0 t.total)
          else if isDecr t = true then decUpdate ⟨0, 0, 0, txUnit t⟩ (toNumOr0 t.qty)
          else ⟨0, 0, 0, txUnit t⟩)) := by
  simp [stepTx, hs, hta, hget, getAcc_append, getAcc]

/-! The averaging discipline is an invariant of the loop. -/

theorem invOk_recomputeAvg (a : Acc) : invOk (recomputeAvg a) := by
  unfold invOk recomputeAvg
  by_cases h : a.qtd > 0
  · rw [if_pos h]
    intro _
    rfl
  · rw [if_neg h]
    intro hq
    exact absurd hq h

theorem inv_stepTx (est : Estoque) (t : Tx)
    (h : ∀ k a, getAcc est k = some a → invOk a) :
    ∀ k a, getAcc (stepTx est t) k = some a → invOk a := by
  intro k a hka
  by_cases hs : isSummaryName t = true
  · rw [stepTx_summary est t hs] at hka
    exact h k a hka
  rw [Bool.not_eq_true] at hs
  by_cases hta : typeAllowed t = true
  case neg =>
    rw [Bool.not_eq_true] at hta
    rw [stepTx_notAllowed est t hta] at hka
    exact h k a hka
  by_cases hk : k = itemName t
  · subst hk
    cases hget : getAcc est (itemName t) with
    | some a0 =>
      rw [stepTx_present est t a0 hs hta hget, getAcc_setAcc_self, hget,
        Option.map_some'] at hka
      rw [← Option.some.injEq] at hka
      cases hka
      exact invOk_recomputeAvg _
    | none =>
      rw [stepTx_absent est t hs hta hget, getAcc_setAcc_self, getAcc_append, hget] at hka
      simp only [getAcc, if_pos rfl, Option.map_some'] at hka
      cases hka
      exact invOk_recomputeAvg _
  · cases hget : getAcc est (itemName t) with
    | some a0 =>
      rw [stepTx_present est t a0 hs hta hget, getAcc_setAcc_ne _ _ _ _ hk] at hka
      exact h k a hka
    | none =>
      rw [stepTx_absent est t hs hta hget, getAcc_setAcc_ne _ _ _ _ hk,
        getAcc_append] at hka
      cases hest : getAcc est k with
      | some a1 =>
        rw [hest] at hka
        simp only at hka
        cases hka
        exact h k a hest
      | none =>
        rw [hest] at hka
        simp only [getAcc] at hka
        rw [if_neg (fun hh => hk hh.symm)] at hka
        cases hka

theorem inv_estoqueOf (txs : List Tx) :
    ∀ k a, getAcc (estoqueOf txs) k = some a → invOk a := by
  suffices hgen : ∀ est, (∀ k a, getAcc est k = some a → invOk a) →
      ∀ k a, getAcc (txs.foldl stepTx est) k = some a → invOk a by
    refine hgen [] ?_
    intro k a h
    simp [getAcc] at h
  induction txs with
  | nil => intro est h; exact h
  | cons t rest ih =>
    intro est h
    exact ih _ (inv_stepTx est t h)

/-! Type-class facts about the type lists. -/

theorem isDecr_typeAllowed (t : Tx) (h : isDecr t = true) : typeAllowed t = true := by
  cases hty : t.type with
  | none => rw [isDecr, hty] at h; cases h
  | some ty =>
    rw [isDecr, hty] at h
    rw [typeAllowed, hty]
    simp only [decreasingTypes, List.contains_cons, List.contains_nil, Bool.or_eq_true,
      beq_iff_eq] at h
    rcases h with h | h | h | h | h | h <;> first | (subst h; decide) | cases h

theorem isDecr_not_isIncr (t : Tx) (h : isDecr t = true) : isIncr t = false := by
  cases hty : t.type with
  | none => rw [isIncr, hty]
  | some ty =>
    rw [isDecr, hty] at h
    rw [isIncr, hty]
    simp only [decreasingTypes, List.contains_cons, List.contains_nil, Bool.or_eq_true,
      beq_iff_eq] at h
    rcases h with h | h | h | h | h | h <;> first | (subst h; decide) | cases h

/-! Closed forms of the two-phase accumulator update. -/

theorem decUpdate_pos (a : Acc) (q : ℚ) (hp : 0 < a.preco_medio) :
    decUpdate a q
      = ⟨a.qtd - q, a.custo_total - q * a.preco_medio, a.preco_medio, a.unidade⟩ := by
  unfold decUpdate
  rw [if_pos (show ({ a with qtd := a.qtd - q } : Acc).preco_medio > 0 from hp)]

theorem decUpdate_nonpos (a : Acc) (q : ℚ) (hp : ¬(0 < a.preco_medio)) :
    decUpdate a q = ⟨a.qtd - q, a.custo_total, a.preco_medio, a.unidade⟩ := by
  unfold decUpdate
  rw [if_neg (show ¬(({ a with qtd := a.qtd - q } : Acc).preco_medio > 0) from hp)]

theorem recomputeAvg_pos (a : Acc) (h : 0 < a.qtd) :
    recomputeAvg a = ⟨a.qtd, a.custo_total, a.custo_total / a.qtd, a.unidade⟩ := by
  unfold recomputeAvg
  rw [if_pos (show a.qtd > 0 from h)]

theorem recomputeAvg_nonpos (a : Acc) (h : ¬(0 < a.qtd)) : recomputeAvg a = a := by
  unfold recomputeAvg
  rw [if_neg (show ¬(a.qtd > 0) from h)]

/-- C4.  On any accumulator state reached by the valuation, a decreasing
transaction updates the state through decUpdate followed by the average
recomputation, and: when the prior average is positive and the quantity
stays positive, the new state is exactly (qtd - q, custo - q*avg, avg) —
the average is unchanged, so consecutive decreases keep it constant; and
whenever the new quantity is non-positive the previously held average is
retained unchanged. -/
theorem decreasing_preserves_average (txs : List Tx) (t : Tx) (a : Acc)
    (hest : getAcc (estoqueOf txs) (itemName t) = some a)
    (hdec : isDecr t = true) (hs : isSummaryName t = false)
    (hq : 0 ≤ toNumOr0 t.qty) :
    getAcc (stepTx (estoqueOf txs) t) (itemName t)
        = some (recomputeAvg (decUpdate a (toNumOr0 t.qty)))
    ∧ (0 < a.preco_medio → 0 < a.qtd - toNumOr0 t.qty →
        recomputeAvg (decUpdate a (toNumOr0 t.qty))
          = ⟨a.qtd - toNumOr0 t.qty,
             a.custo_total - toNumOr0 t.qty * a.preco_medio,
             a.preco_medio, a.unidade⟩)
    ∧ (a.qtd - toNumOr0 t.qty ≤ 0 →
        (recomputeAvg (decUpdate a (toNumOr0 t.qty))).preco_medio = a.preco_medio
        ∧ (recomputeAvg (decUpdate a (toNumOr0 t.qty))).qtd = a.qtd - toNumOr0 t.qty) := by
  have hta := isDecr_typeAllowed t hdec
  have hni := isDecr_not_isIncr t hdec
  refine ⟨?_, ?_, ?_⟩
  · rw [stepTx_present _ t a hs hta hest, hni, hdec]
    rw [if_neg (by simp), if_pos rfl, getAcc_setAcc_self, hest]
    rfl
  · intro hp hqpos
    have hinv := inv_estoqueOf txs (itemName t) a hest
    have hq0 : 0 < a.qtd := by linarith
    have havg : a.preco_medio = a.custo_total / a.qtd := hinv hq0
    have hqne : a.qtd ≠ 0 := ne_of_gt hq0
    have hrne : a.qtd - toNumOr0 t.qty ≠ 0 := ne_of_gt hqpos
    rw [decUpdate_pos a _ hp, recomputeAvg_pos _ hqpos]
    have hpre : (a.custo_total - toNumOr0 t.qty * a.preco_medio) / (a.qtd - toNumOr0 t.qty)
        = a.preco_medio := by
      rw [havg]
      field_simp
      ring
    simp [Acc.mk.injEq, hpre]
  · intro hle
    have hnot : ¬(0 < a.qtd - toNumOr0 t.qty) := by linarith
    by_cases hp : 0 < a.preco_medio
    · rw [decUpdate_pos a _ hp, recomputeAvg_nonpos _ hnot]
      exact ⟨rfl, rfl⟩
    · rw [decUpdate_nonpos a _ hp, recomputeAvg_nonpos _ hnot]
      exact ⟨rfl, rfl⟩

/-- Witness for C4 at a concrete ledger: after buying 10 units for 20
(average 2), a sale of 4 yields quantity 6, cost 12 and the unchanged
average 2. -/
theorem decreasing_preserves_average_witness :
    getAcc (stepTx (estoqueOf
        [{ type := some "compra", description := some "FARINHA",
           qty := some (.vnum 10), total := some (.vnum 20) }])
      { type := some "venda", description := some "FARINHA", qty := some (.vnum 4) })
      "FARINHA" = some ⟨6, 12, 2, "UN"⟩ := by
  have hitem : itemName { type := some "venda", description := some "FARINHA", qty := some (.vnum 4) } = "FARINHA" := by decide
  have hest : getAcc (estoqueOf
      [{ type := some "compra", description := some "FARINHA",
         qty := some (.vnum 10), total := some (.vnum 20) }]) "FARINHA"
      = some ⟨10, 20, 2, "UN"⟩ := by
    norm_num +decide [estoqueOf, stepTx, isSummaryName, itemName, orDefault, strStarts,
      typeAllowed, allowedTypes, toNumOr0, getAcc, setAcc, txUnit, isIncr, isDecr,
      increasingTypes, decreasingTypes, incUpdate, decUpdate, recomputeAvg, List.isPrefixOf]
  have h := decreasing_preserves_average
    [{ type := some "compra", description := some "FARINHA",
       qty := some (.vnum 10), total := some (.vnum 20) }]
    { type := some "venda", description := some "FARINHA", qty := some (.vnum 4) }
    ⟨10, 20, 2, "UN"⟩ (by rw [hitem]; exact hest) (by decide) (by decide)
    (by norm_num [toNumOr0])
  have h2 := h.2.1 (by norm_num) (by norm_num [toNumOr0])
  rw [hitem] at h
  rw [h.1, h2]
  norm_num [toNumOr0]

/-! Keys of the estoque are unique. -/

theorem setAcc_append (l1 l2 : Estoque) (k : String) (a : Acc) :
    setAcc (l1 ++ l2) k a = setAcc l1 k a ++ setAcc l2 k a := by
  induction l1 with
  | nil => rfl
  | cons p rest ih => simp [setAcc, ih]

theorem keys_nodup_stepTx (est : Estoque) (t : Tx)
    (h : (est.map Prod.fst).Nodup) : ((stepTx est t).map Prod.fst).Nodup := by
  by_cases hs : isSummaryName t = true
  case pos =>
    rw [stepTx_summary est t hs]
    exact h
  rw [Bool.not_eq_true] at hs
  by_cases hta : typeAllowed t = true
  case neg =>
    rw [Bool.not_eq_true] at hta
    rw [stepTx_notAllowed est t hta]
    exact h
  cases hget : getAcc est (itemName t) with
  | some a0 =>
    rw [stepTx_present est t a0 hs hta hget, keys_setAcc]
    exact h
  | none =>
    rw [stepTx_absent est t hs hta hget, keys_setAcc, List.map_append]
    simp only [List.map_cons, List.map_nil]
    have hmem : itemName t ∉ est.map Prod.fst := (getAcc_none_iff est (itemName t)).mp hget
    exact List.Nodup.append h (List.nodup_singleton _)
      (fun x hx hy => by
        simp only [List.mem_singleton] at hy
        exact hmem (hy ▸ hx))

theorem keys_nodup_estoqueOf (txs : List Tx) :
    ((estoqueOf txs).map Prod.fst).Nodup := by
  suffices hgen : ∀ est, (est.map Prod.fst).Nodup →
      ((txs.foldl stepTx est).map Prod.fst).Nodup by
    exact hgen [] (by simp)
  induction txs with
  | nil => intro est h; exact h
  | cons t rest ih =>
    intro est h
    exact ih _ (keys_nodup_stepTx est t h)

/-! Behavior of the loop on a recipe record. -/

theorem isReceita_flags (t : Tx) (h : t.type = some "receita_produto") :
    isIncr t = false ∧ isDecr t = false ∧ typeAllowed t = true := by
  refine ⟨?_, ?_, ?_⟩ <;> simp [isIncr, isDecr, typeAllowed, h] <;> decide

theorem stepTx_receita_present (est : Estoque) (t : Tx) (a : Acc)
    (hrec : t.type = some "receita_produto") (hs : isSummaryName t = false)
    (hnd : (est.map Prod.fst).Nodup)
    (hinv : ∀ k b, getAcc est k = some b → invOk b)
    (hget : getAcc est (itemName t) = some a) :
    stepTx est t = est := by
  obtain ⟨hni, hndk, hta⟩ := isReceita_flags t hrec
  rw [stepTx_present est t a hs hta hget, hni, hndk]
  rw [if_neg (by simp), if_neg (by simp)]
  have hin := hinv _ _ hget
  have hrec_eq : recomputeAvg a = a := by
    by_cases hq : 0 < a.qtd
    · rw [recomputeAvg_pos a hq, ← hin hq]
    · exact recomputeAvg_nonpos a hq
  rw [hrec_eq, setAcc_self est (itemName t) a hnd hget]

theorem stepTx_receita_absent (est : Estoque) (t : Tx)
    (hrec : t.type = some "receita_produto") (hs : isSummaryName t = false)
    (hget : getAcc est (itemName t) = none) :
    stepTx est t = est ++ [(itemName t, ⟨0, 0, 0, txUnit t⟩)] := by
  obtain ⟨hni, hndk, hta⟩ := isReceita_flags t hrec
  rw [stepTx_absent est t hs hta hget, hni, hndk]
  rw [if_neg (by simp), if_neg (by simp)]
  rw [recomputeAvg_nonpos _ (by norm_num), setAcc_append,
    setAcc_absent est _ _ hget]
  simp [setAcc]

/-- C1 counterexample: a receita_produto transaction is NOT discarded by the
valuation filter â it registers its product as an item and produces an
output row (of zero quantity) when zero-stock rows are requested, where the
claim asserts it contributes no row. -/
theorem recipe_type_not_discarded :
    get_inventory_dataframe
      [{ type := some "receita_produto", description := some "BOLO DE CENOURA" }] true
      = [⟨"BOLO DE CENOURA", "UN", 0, 0, 0⟩]
    ∧ get_inventory_dataframe
      [{ type := some "receita_produto", description := some "BOLO DE CENOURA" }] true
      ≠ [] := by
  have h1 : get_inventory_dataframe
      [{ type := some "receita_produto", description := some "BOLO DE CENOURA" }] true
      = [⟨"BOLO DE CENOURA", "UN", 0, 0, 0⟩] := by
    norm_num +decide [get_inventory_dataframe, estoqueOf, stepTx, isSummaryName, itemName,
      orDefault, strStarts, typeAllowed, allowedTypes, toNumOr0, getAcc, setAcc, txUnit,
      isIncr, isDecr, increasingTypes, decreasingTypes, incUpdate, decUpdate, recomputeAvg,
      List.isPrefixOf, List.filterMap_cons, List.filterMap_nil]
  refine ⟨h1, ?_⟩
  rw [h1]
  simp

/-- C1 amended.  The valuation filter admits eight types, the seven
stock-affecting kinds plus receita_produto.  Any transaction whose type is
outside the eight (or missing) is fully discarded: deleting it from any
position leaves the output unchanged.  A non-summary receita_produto
transaction never changes any item quantity, cost or average: appended to a
ledger in which its product key is already registered it leaves the output
unchanged; on a fresh key it only registers the item, contributing no row
when zero-stock rows are excluded and one zero-quantity, zero-value row when
they are included. -/
theorem valuation_type_filter_amended :
    (∀ (l1 l2 : List Tx) (t : Tx) (z : Bool), typeAllowed t = false →
       get_inventory_dataframe (l1 ++ t :: l2) z = get_inventory_dataframe (l1 ++ l2) z)
    ∧ (∀ (l1 : List Tx) (t : Tx), t.type = some "receita_produto" →
        isSummaryName t = false →
        (∀ a, getAcc (estoqueOf l1) (itemName t) = some a →
          ∀ z, get_inventory_dataframe (l1 ++ [t]) z = get_inventory_dataframe l1 z)
        ∧ (getAcc (estoqueOf l1) (itemName t) = none →
            get_inventory_dataframe (l1 ++ [t]) false = get_inventory_dataframe l1 false
            ∧ get_inventory_dataframe (l1 ++ [t]) true
              = get_inventory_dataframe l1 true
                ++ [⟨itemName t, txUnit t, 0, 0, 0⟩])) := by
  constructor
  · intro l1 l2 t z h
    unfold get_inventory_dataframe estoqueOf
    rw [foldl_stepTx_append, foldl_stepTx_append, List.foldl_cons, stepTx_notAllowed _ _ h]
  · intro l1 t hrec hs
    constructor
    · intro a hget z
      have hpres : estoqueOf (l1 ++ [t]) = estoqueOf l1 := by
        show (l1 ++ [t]).foldl stepTx [] = _
        rw [foldl_stepTx_append, List.foldl_cons, List.foldl_nil]
        exact stepTx_receita_present _ t a hrec hs (keys_nodup_estoqueOf l1)
          (inv_estoqueOf l1) hget
      unfold get_inventory_dataframe
      rw [hpres]
    · intro hget
      have habs : estoqueOf (l1 ++ [t])
          = estoqueOf l1 ++ [(itemName t, ⟨0, 0, 0, txUnit t⟩)] := by
        show (l1 ++ [t]).foldl stepTx [] = _
        rw [foldl_stepTx_append, List.foldl_cons, List.foldl_nil]
        exact stepTx_receita_absent _ t hrec hs hget
      constructor
      · unfold get_inventory_dataframe
        rw [habs, List.filterMap_append]
        simp
      · unfold get_inventory_dataframe
        rw [habs, List.filterMap_append]
        simp

/-- Witness for C1 amended: a transaction of the unrecognized type
receita (not a stock-affecting kind) is fully discarded, and a fresh
receita_produto only adds a zero row in zero-stock mode. -/
theorem valuation_type_filter_amended_witness :
    typeAllowed ({ type := some "receita", description := some "X" } : Tx) = false
    ∧ get_inventory_dataframe
        [{ type := some "receita", description := some "X" }] true
        = get_inventory_dataframe [] true
    ∧ get_inventory_dataframe
        [{ type := some "receita_produto", description := some "BOLO" }] false
        = get_inventory_dataframe [] false := by
  have h := valuation_type_filter_amended
  refine ⟨by decide, ?_, ?_⟩
  · exact h.1 [] [] { type := some "receita", description := some "X" } true (by decide)
  · exact ((h.2 [] { type := some "receita_produto", description := some "BOLO" }
      rfl (by decide)).2 (by decide)).1

/-! The rename loop as a pointwise map. -/

theorem rewriteTx_id (nn nu : String) (t : Tx) : (rewriteTx nn nu t).id = t.id := rfl

theorem rename_fold (old_names : List String) (nn nu : String) (rest : List Tx) :
    ∀ (st : List Tx) (n : ℕ),
    (∀ t ∈ rest, t ∈ st) →
    (∀ t ∈ rest, ∀ u ∈ st, u.id = t.id → u = t) →
    (rest.map (fun u => u.id)).Nodup →
    (rest.foldl (rename_step old_names nn nu) (st, n)).1
      = st.map (fun u =>
          if rest.any (fun t => renameHit old_names t && decide (t.id = u.id)) = true then
            rewriteTx nn nu u
          else u)
    ∧ (rest.foldl (rename_step old_names nn nu) (st, n)).2
      = n + rest.countP (renameHit old_names) := by
  induction rest with
  | nil =>
    intro st n _ _ _
    simp
  | cons t rest ih =>
    intro st n hsub hkey hnd
    rw [List.map_cons, List.nodup_cons] at hnd
    have htid : ∀ s ∈ rest, s.id ≠ t.id := by
      intro s hs heq
      exact hnd.1 (heq ▸ List.mem_map_of_mem (fun u => u.id) hs)
    rw [List.foldl_cons]
    by_cases hhit : renameHit old_names t = true
    case neg =>
      rw [Bool.not_eq_true] at hhit
      have hstep : rename_step old_names nn nu (st, n) t = (st, n) := by
        simp [rename_step, hhit]
      rw [hstep]
      have hrest := ih st n (fun u hu => hsub u (List.mem_cons_of_mem t hu))
        (fun u hu => hkey u (List.mem_cons_of_mem t hu)) hnd.2
      refine ⟨?_, ?_⟩
      · rw [hrest.1]
        apply List.map_congr_left
        intro u _
        have hcond : ((t :: rest).any
            (fun s => renameHit old_names s && decide (s.id = u.id)))
            = (rest.any (fun s => renameHit old_names s && decide (s.id = u.id))) := by
          simp [hhit]
        rw [hcond]
      · rw [hrest.2, List.countP_cons, hhit]
        simp
    case pos =>
      have hmem : t ∈ st := hsub t (List.mem_cons_self t rest)
      have hany : (st.any (fun s => decide (s.id = (rewriteTx nn nu t).id))) = true :=
        List.any_eq_true.mpr ⟨t, hmem, by simp [rewriteTx_id]⟩
      have hstep : rename_step old_names nn nu (st, n) t
          = (st.map (fun s => if s.id = t.id then rewriteTx nn nu t else s), n + 1) := by
        simp only [rename_step, hhit, if_pos]
        unfold upsert_item
        rw [if_pos hany]
        rfl
      rw [hstep]
      have hsub2 : ∀ u ∈ rest,
          u ∈ st.map (fun s => if s.id = t.id then rewriteTx nn nu t else s) := by
        intro u hu
        refine List.mem_map.mpr ⟨u, hsub u (List.mem_cons_of_mem t hu), ?_⟩
        rw [if_neg (htid u hu)]
      have hkey2 : ∀ s ∈ rest,
          ∀ u ∈ st.map (fun s => if s.id = t.id then rewriteTx nn nu t else s),
          u.id = s.id → u = s := by
        intro s hs u hu heq
        obtain ⟨u0, hu0, hu0e⟩ := List.mem_map.mp hu
        by_cases h0 : u0.id = t.id
        · rw [if_pos h0] at hu0e
          rw [← hu0e] at heq
          rw [rewriteTx_id] at heq
          exact absurd heq.symm (htid s hs)
        · rw [if_neg h0] at hu0e
          rw [← hu0e] at heq ⊢
          exact hkey s (List.mem_cons_of_mem t hs) u0 hu0 heq
      have hrest := ih _ (n + 1) hsub2 hkey2 hnd.2
      refine ⟨?_, ?_⟩
      · rw [hrest.1, List.map_map]
        apply List.map_congr_left
        intro u hu
        by_cases hid : u.id = t.id
        · have hut : u = t := hkey t (List.mem_cons_self t rest) u hu hid
          have hfalse : (rest.any
              (fun s => renameHit old_names s
                && decide (s.id = (rewriteTx nn nu t).id))) = false := by
            by_contra hcon
            rw [Bool.not_eq_false, List.any_eq_true] at hcon
            obtain ⟨s, hs, hps⟩ := hcon
            simp only [Bool.and_eq_true, decide_eq_true_eq, rewriteTx_id] at hps
            exact htid s hs hps.2
          have htrue : ((t :: rest).any
              (fun s => renameHit old_names s && decide (s.id = u.id))) = true := by
            apply List.any_eq_true.mpr
            exact ⟨t, List.mem_cons_self t rest, by simp [hhit, hid]⟩
          simp only [Function.comp, if_pos hid, hfalse, htrue, if_true]
          simp [hut]
        · have hcond : ((t :: rest).any
              (fun s => renameHit old_names s && decide (s.id = u.id)))
              = (rest.any (fun s => renameHit old_names s && decide (s.id = u.id))) := by
            have : ¬(t.id = u.id) := fun hh => hid hh.symm
            simp [this]
          simp only [Function.comp, if_neg hid, hcond]
      · rw [hrest.2, List.countP_cons, hhit]
        simp
        omega

theorem upn_fst (store : List Tx) (old_names : List String) (nn nu : String)
    (hnd : (store.map (fun u => u.id)).Nodup) :
    (update_product_name store old_names nn nu).1
      = store.map (fun t => if renameHit old_names t = true then rewriteTx nn nu t else t) := by
  have hkey : ∀ t ∈ store, ∀ u ∈ store, u.id = t.id → u = t := by
    intro t ht u hu heq
    exact List.inj_on_of_nodup_map hnd hu ht heq
  have h := rename_fold old_names nn nu store store 0 (fun t ht => ht) hkey hnd
  rw [show (update_product_name store old_names nn nu).1
      = (store.foldl (rename_step old_names nn nu) (store, 0)).1 from rfl, h.1]
  apply List.map_congr_left
  intro u hu
  by_cases hh : renameHit old_names u = true
  · have hany : (store.any
        (fun t => renameHit old_names t && decide (t.id = u.id))) = true :=
      List.any_eq_true.mpr ⟨u, hu, by simp [hh]⟩
    rw [if_pos hany, if_pos hh]
  · have hany : (store.any
        (fun t => renameHit old_names t && decide (t.id = u.id))) = false := by
      by_contra hcon
      rw [Bool.not_eq_false, List.any_eq_true] at hcon
      obtain ⟨t, ht, hpt⟩ := hcon
      simp only [Bool.and_eq_true, decide_eq_true_eq] at hpt
      have hut : t = u := hkey u hu t ht hpt.2
      rw [hut] at hpt
      exact hh hpt.1
    rw [if_neg (by rw [hany]; exact Bool.false_ne_true), if_neg hh]

theorem upn_snd (store : List Tx) (old_names : List String) (nn nu : String)
    (hnd : (store.map (fun u => u.id)).Nodup) :
    (update_product_name store old_names nn nu).2
      = store.countP (renameHit old_names) := by
  have hkey : ∀ t ∈ store, ∀ u ∈ store, u.id = t.id → u = t := by
    intro t ht u hu heq
    exact List.inj_on_of_nodup_map hnd hu ht heq
  have h := rename_fold old_names nn nu store store 0 (fun t ht => ht) hkey hnd
  rw [show (update_product_name store old_names nn nu).2
      = (store.foldl (rename_step old_names nn nu) (store, 0)).2 from rfl, h.2]
  simp

/-- C10.  update_product_name rewrites exactly the records that are not of
type receita_produto or venda_produto and whose description is in the alias
set: the resulting store is the pointwise map that replaces description by
the stripped upper-cased canonical name and unit_measure by the canonical
unit on hits and leaves every other record untouched; the returned count is
the number of hits; and the rewrite changes no other field — in particular
id, created_at and last_updated keep their prior values (the write bypasses
save_transaction). -/
theorem update_product_name_frame (store : List Tx) (old_names : List String)
    (nn nu : String)
    (hnd : (store.map (fun u => u.id)).Nodup) :
    (update_product_name store old_names nn nu).1
      = store.map (fun t => if renameHit old_names t = true then rewriteTx nn nu t else t)
    ∧ (update_product_name store old_names nn nu).2 = store.countP (renameHit old_names)
    ∧ (∀ t : Tx, (rewriteTx nn nu t).description = some (strUpper (strStrip nn))
        ∧ (rewriteTx nn nu t).unit_measure = some nu
        ∧ (rewriteTx nn nu t).id = t.id
        ∧ (rewriteTx nn nu t).type = t.type
        ∧ (rewriteTx nn nu t).product_name = t.product_name
        ∧ (rewriteTx nn nu t).qty = t.qty
        ∧ (rewriteTx nn nu t).total = t.total
        ∧ (rewriteTx nn nu t).unit = t.unit
        ∧ (rewriteTx nn nu t).unit_price = t.unit_price
        ∧ (rewriteTx nn nu t).related_sale_id = t.related_sale_id
        ∧ (rewriteTx nn nu t).related_waste_id = t.related_waste_id
        ∧ (rewriteTx nn nu t).user_id = t.user_id
        ∧ (rewriteTx nn nu t).created_at = t.created_at
        ∧ (rewriteTx nn nu t).last_updated = t.last_updated
        ∧ (rewriteTx nn nu t).waste_item = t.waste_item
        ∧ (rewriteTx nn nu t).waste_reason = t.waste_reason
        ∧ (rewriteTx nn nu t).lost_revenue = t.lost_revenue
        ∧ (rewriteTx nn nu t).date = t.date) := by
  exact ⟨upn_fst store old_names nn nu hnd, upn_snd store old_names nn nu hnd,
    fun t => ⟨rfl, rfl, rfl, rfl, rfl, rfl, rfl, rfl, rfl, rfl, rfl, rfl, rfl, rfl, rfl,
      rfl, rfl, rfl⟩⟩

/-- Witness for C10: renaming alias A to canonical " b " with unit G in a
two-record store rewrites only the purchase record, normalizing the name to
B, and counts one rewrite; the sale-of-product record with the same
description is untouched. -/
theorem update_product_name_frame_witness :
    (update_product_name
      [{ id := some "1", type := some "compra", description := some "A",
         unit_measure := some "KG", created_at := some "c1", last_updated := some "l1" },
       { id := some "2", type := some "venda_produto", description := some "A" }]
      ["A"] " b " "G").1
      = [{ id := some "1", type := some "compra", description := some "B",
           unit_measure := some "G", created_at := some "c1", last_updated := some "l1" },
         { id := some "2", type := some "venda_produto", description := some "A" }]
    ∧ (update_product_name
      [{ id := some "1", type := some "compra", description := some "A",
         unit_measure := some "KG", created_at := some "c1", last_updated := some "l1" },
       { id := some "2", type := some "venda_produto", description := some "A" }]
      ["A"] " b " "G").2 = 1 := by
  have h := update_product_name_frame
    [{ id := some "1", type := some "compra", description := some "A",
       unit_measure := some "KG", created_at := some "c1", last_updated := some "l1" },
     { id := some "2", type := some "venda_produto", description := some "A" }]
    ["A"] " b " "G" (by decide)
  constructor
  · rw [h.1]
    decide
  · rw [h.2.1]
    decide

/-! The waste cascade. -/

/-- C6 counterexample: the per-ingredient records written by the waste
cascade are not the same records a sale of the recipe would cascade.  For a
one-ingredient recipe at positive stock, the waste cascade writes type
desperdicio with a related_waste_id tag, while the sale cascade writes type
uso_receita with a related_sale_id tag, so even with identical link ids the
record lists differ. -/
theorem waste_cascade_differs_from_sale_cascade :
    (waste_ingredient_txs ⟨"r1", "BOLO", [⟨"FARINHA", 100, "G", 2⟩], 10, 100, 25⟩
        2 "w1" "d").map (fun u => u.type)
      = [some "desperdicio"]
    ∧ (sale_ingredient_txs ⟨"r1", "BOLO", [⟨"FARINHA", 100, "G", 2⟩], 10, 100, 25⟩
        2 (fun _ => 500) "w1" "d").map (fun u => u.type)
      = [some "uso_receita"]
    ∧ waste_ingredient_txs ⟨"r1", "BOLO", [⟨"FARINHA", 100, "G", 2⟩], 10, 100, 25⟩
        2 "w1" "d"
      ≠ sale_ingredient_txs ⟨"r1", "BOLO", [⟨"FARINHA", 100, "G", 2⟩], 10, 100, 25⟩
        2 (fun _ => 500) "w1" "d" := by
  have h1 : (waste_ingredient_txs ⟨"r1", "BOLO", [⟨"FARINHA", 100, "G", 2⟩], 10, 100, 25⟩
      2 "w1" "d").map (fun u => u.type) = [some "desperdicio"] := rfl
  have h2 : (sale_ingredient_txs ⟨"r1", "BOLO", [⟨"FARINHA", 100, "G", 2⟩], 10, 100, 25⟩
      2 (fun _ => 500) "w1" "d").map (fun u => u.type) = [some "uso_receita"] := by
    norm_num [sale_ingredient_txs]
  refine ⟨h1, h2, fun hcon => ?_⟩
  have hmap := congrArg (List.map (fun u : Tx => u.type)) hcon
  rw [h1, h2] at hmap
  exact absurd hmap (by decide)

/-- C6 amended.  Registering waste of a finished recipe with quantity lost q
writes a summary record with total = recipe.total_cost * q, lost_revenue =
recipe.sale_price * q and summary qty hardcoded to 1, plus one record per
recipe ingredient with qty = qtd_real * q, zero total, the ingredient's
unit and name, tagged with related_waste_id = the summary's id.  Those
records match a sale's cascade in description, quantity, unit and total,
but carry type desperdicio and the related_waste_id tag where a sale writes
uso_receita or uso_receita_negativo and related_sale_id.  Waste of a raw
stock item with quantity lost q writes a record whose total is q times the
item's current weighted-average cost from the valuation. -/
theorem waste_cascade_spec (prod : Recipe) (qp qw : ℚ) (reason now wid sid : String)
    (stock : String → ℚ) (txs : List Tx) (isel : String) :
    (waste_product_summary prod qp reason now).total = some (.vnum (prod.total_cost * qp))
    ∧ (waste_product_summary prod qp reason now).lost_revenue
        = some (.vnum (prod.sale_price * qp))
    ∧ (waste_product_summary prod qp reason now).qty = some (.vnum 1)
    ∧ waste_ingredient_txs prod qp wid now
        = prod.ingredients.map (fun ing =>
            { type := some "desperdicio", description := some ing.name,
              qty := some (.vnum (ing.qtd_real * qp)), unit_measure := some ing.unit_db,
              total := some (.vnum 0), related_waste_id := some wid, date := some now })
    ∧ waste_ingredient_txs prod qp wid now
        = (sale_ingredient_txs prod qp stock sid now).map (fun u =>
            { u with type := some "desperdicio", related_sale_id := none,
                     related_waste_id := some wid })
    ∧ (waste_stock_summary txs isel qw reason now).total
        = some (.vnum (qw * precoOf (estoqueOf txs) isel)) := by
  refine ⟨rfl, rfl, rfl, rfl, ?_, rfl⟩
  unfold waste_ingredient_txs sale_ingredient_txs
  rw [List.map_map]
  apply List.map_congr_left
  intro ing _
  rfl

/-! Per-key sums of the valuation loop. -/

theorem qtd_recomputeAvg (a : Acc) : (recomputeAvg a).qtd = a.qtd := by
  simp only [recomputeAvg]
  split <;> rfl

theorem custo_recomputeAvg (a : Acc) : (recomputeAvg a).custo_total = a.custo_total := by
  simp only [recomputeAvg]
  split <;> rfl

theorem qtd_decUpdate (a : Acc) (q : ℚ) : (decUpdate a q).qtd = a.qtd - q := by
  simp only [decUpdate]
  split <;> rfl

theorem qtdOf_some (est : Estoque) (k : String) (a : Acc)
    (h : getAcc est k = some a) : qtdOf est k = a.qtd := by
  unfold qtdOf
  rw [h]

theorem qtdOf_none (est : Estoque) (k : String)
    (h : getAcc est k = none) : qtdOf est k = 0 := by
  unfold qtdOf
  rw [h]

theorem custoOf_some (est : Estoque) (k : String) (a : Acc)
    (h : getAcc est k = some a) : custoOf est k = a.custo_total := by
  unfold custoOf
  rw [h]

theorem custoOf_none (est : Estoque) (k : String)
    (h : getAcc est k = none) : custoOf est k = 0 := by
  unfold custoOf
  rw [h]

theorem getAcc_append_fresh (est : Estoque) (t : Tx)
    (hget : getAcc est (itemName t) = none) :
    getAcc (est ++ [(itemName t, (⟨0, 0, 0, txUnit t⟩ : Acc))]) (itemName t)
      = some ⟨0, 0, 0, txUnit t⟩ := by
  rw [getAcc_append, hget]
  simp [getAcc]

theorem qtdOf_stepTx (est : Estoque) (t : Tx) (k : String) :
    qtdOf (stepTx est t) k
      = qtdOf est k + (if affects k t = true then qtyDelta t else 0) := by
  by_cases hs : isSummaryName t = true
  · rw [stepTx_summary est t hs]
    have haf : affects k t = false := by simp [affects, hs]
    rw [haf]
    simp
  rw [Bool.not_eq_true] at hs
  by_cases hta : typeAllowed t = true
  case neg =>
    rw [Bool.not_eq_true] at hta
    rw [stepTx_notAllowed est t hta]
    have haf : affects k t = false := by simp [affects, hta]
    rw [haf]
    simp
  by_cases hk : itemName t = k
  case neg =>
    have haf : affects k t = false := by simp [affects, hk]
    rw [haf]
    have hkk : ¬(k = itemName t) := fun hh => hk hh.symm
    cases hget : getAcc est (itemName t) with
    | some a0 =>
      rw [stepTx_present est t a0 hs hta hget]
      unfold qtdOf
      rw [getAcc_setAcc_ne _ _ _ _ hkk]
      simp
    | none =>
      rw [stepTx_absent est t hs hta hget]
      unfold qtdOf
      rw [getAcc_setAcc_ne _ _ _ _ hkk, getAcc_append]
      cases hg2 : getAcc est k with
      | some a1 => simp
      | none =>
        simp only [getAcc, if_neg hk]
        simp
  case pos =>
    subst hk
    have haf : affects (itemName t) t = true := by simp [affects, hs, hta]
    rw [haf, if_pos rfl]
    cases hget : getAcc est (itemName t) with
    | some a0 =>
      rw [stepTx_present est t a0 hs hta hget]
      rw [qtdOf_some _ _ _ (by rw [getAcc_setAcc_self, hget]; rfl),
        qtdOf_some _ _ _ hget, qtd_recomputeAvg]
      by_cases hi : isIncr t = true
      · rw [if_pos hi]
        unfold qtyDelta
        rw [if_pos hi]
        rfl
      · rw [if_neg hi]
        by_cases hd : isDecr t = true
        · rw [if_pos hd, qtd_decUpdate]
          unfold qtyDelta
          rw [if_neg hi, if_pos hd]
          ring
        · rw [if_neg hd]
          unfold qtyDelta
          rw [if_neg hi, if_neg hd]
          simp
    | none =>
      rw [stepTx_absent est t hs hta hget]
      rw [qtdOf_some _ _ _ (by rw [getAcc_setAcc_self, getAcc_append_fresh est t hget]; rfl),
        qtdOf_none _ _ hget, qtd_recomputeAvg]
      by_cases hi : isIncr t = true
      · rw [if_pos hi]
        unfold qtyDelta
        rw [if_pos hi]
        rfl
      · rw [if_neg hi]
        by_cases hd : isDecr t = true
        · rw [if_pos hd, qtd_decUpdate]
          unfold qtyDelta
          rw [if_neg hi, if_pos hd]
          ring_nf
        · rw [if_neg hd]
          unfold qtyDelta
          rw [if_neg hi, if_neg hd]
          simp

theorem qtdOf_foldl (txs : List Tx) : ∀ (est : Estoque) (k : String),
    qtdOf (txs.foldl stepTx est) k = qtdOf est k + sumQty k txs := by
  induction txs with
  | nil =>
    intro est k
    simp [sumQty]
  | cons t rest ih =>
    intro est k
    rw [List.foldl_cons, ih, qtdOf_stepTx]
    simp only [sumQty]
    ring

theorem custoOf_stepTx (est : Estoque) (t : Tx) (k : String)
    (hincr : affects k t = true → isIncr t = true) :
    custoOf (stepTx est t) k
      = custoOf est k + (if affects k t = true then toNumOr0 t.total else 0) := by
  by_cases hs : isSummaryName t = true
  · rw [stepTx_summary est t hs]
    have haf : affects k t = false := by simp [affects, hs]
    rw [haf]
    simp
  rw [Bool.not_eq_true] at hs
  by_cases hta : typeAllowed t = true
  case neg =>
    rw [Bool.not_eq_true] at hta
    rw [stepTx_notAllowed est t hta]
    have haf : affects k t = false := by simp [affects, hta]
    rw [haf]
    simp
  by_cases hk : itemName t = k
  case neg =>
    have haf : affects k t = false := by simp [affects, hk]
    rw [haf]
    have hkk : ¬(k = itemName t) := fun hh => hk hh.symm
    cases hget : getAcc est (itemName t) with
    | some a0 =>
      rw [stepTx_present est t a0 hs hta hget]
      unfold custoOf
      rw [getAcc_setAcc_ne _ _ _ _ hkk]
      simp
    | none =>
      rw [stepTx_absent est t hs hta hget]
      unfold custoOf
      rw [getAcc_setAcc_ne _ _ _ _ hkk, getAcc_append]
      cases hg2 : getAcc est k with
      | some a1 => simp
      | none =>
        simp only [getAcc, if_neg hk]
        simp
  case pos =>
    subst hk
    have haf : affects (itemName t) t = true := by simp [affects, hs, hta]
    have hi : isIncr t = true := hincr haf
    rw [haf, if_pos rfl]
    cases hget : getAcc est (itemName t) with
    | some a0 =>
      rw [stepTx_present est t a0 hs hta hget]
      rw [custoOf_some _ _ _ (by rw [getAcc_setAcc_self, hget]; rfl),
        custoOf_some _ _ _ hget, custo_recomputeAvg, if_pos hi]
      rfl
    | none =>
      rw [stepTx_absent est t hs hta hget]
      rw [custoOf_some _ _ _
          (by rw [getAcc_setAcc_self, getAcc_append_fresh est t hget]; rfl),
        custoOf_none _ _ hget, custo_recomputeAvg, if_pos hi]
      rfl

theorem custoOf_foldl (txs : List Tx) : ∀ (est : Estoque) (k : String),
    (∀ t ∈ txs, affects k t = true → isIncr t = true) →
    custoOf (txs.foldl stepTx est) k = custoOf est k + sumTot k txs := by
  induction txs with
  | nil =>
    intro est k _
    simp [sumTot]
  | cons t rest ih =>
    intro est k hincr
    rw [List.foldl_cons,
      ih _ k (fun u hu => hincr u (List.mem_cons_of_mem t hu)),
      custoOf_stepTx est t k (hincr t (List.mem_cons_self t rest))]
    simp only [sumTot]
    ring

/-! Transport of per-key sums through the bulk rename. -/

theorem typeAllowed_rewriteTx (nn nu : String) (t : Tx) :
    typeAllowed (rewriteTx nn nu t) = typeAllowed t := rfl

theorem isIncr_rewriteTx (nn nu : String) (t : Tx) :
    isIncr (rewriteTx nn nu t) = isIncr t := rfl

theorem qtyDelta_rewriteTx (nn nu : String) (t : Tx) :
    qtyDelta (rewriteTx nn nu t) = qtyDelta t := rfl

theorem total_rewriteTx (nn nu : String) (t : Tx) :
    (rewriteTx nn nu t).total = t.total := rfl

theorem itemName_rewriteTx (nn nu : String) (t : Tx)
    (hC : strUpper (strStrip nn) ≠ "") :
    itemName (rewriteTx nn nu t) = strUpper (strStrip nn) := by
  simp [itemName, rewriteTx, orDefault, hC]

theorem renameHit_item (A B : String) (hA : A ≠ "") (hB : B ≠ "") (t : Tx)
    (h : renameHit [A, B] t = true) : itemName t = A ∨ itemName t = B := by
  unfold renameHit at h
  cases hd : t.description with
  | none =>
    rw [hd] at h
    simp at h
  | some d =>
    rw [hd] at h
    simp only [Bool.and_eq_true, List.contains_cons, List.contains_nil, Bool.or_false,
      Bool.or_eq_true, beq_iff_eq] at h
    rcases h.2 with h2 | h2
    · subst h2
      left
      simp [itemName, hd, orDefault, hA]
    · subst h2
      right
      simp [itemName, hd, orDefault, hB]

theorem head_transport (A B nn nu : String) (t : Tx) (f : Tx → ℚ)
    (hf : f (rewriteTx nn nu t) = f t)
    (hA : A ≠ "") (hB : B ≠ "") (hAB : A ≠ B)
    (hC : strUpper (strStrip nn) ≠ "")
    (hCv : strStarts (strUpper (strStrip nn)) "VENDA:" = false)
    (hCd : strStarts (strUpper (strStrip nn)) "DESP:" = false)
    (hAv : strStarts A "VENDA:" = false) (hAd : strStarts A "DESP:" = false)
    (hBv : strStarts B "VENDA:" = false) (hBd : strStarts B "DESP:" = false)
    (hgood_t : (itemName t = A ∨ itemName t = B) →
        t.description = some (itemName t) ∧ renameSkip t = false)
    (hfresh_t : itemName t ≠ strUpper (strStrip nn)) :
    (if affects (strUpper (strStrip nn))
        (if renameHit [A, B] t = true then rewriteTx nn nu t else t) = true then
      f (if renameHit [A, B] t = true then rewriteTx nn nu t else t) else 0)
      = (if affects A t = true then f t else 0) + (if affects B t = true then f t else 0) := by
  by_cases hka : itemName t = A
  · obtain ⟨hdesc, hskip⟩ := hgood_t (Or.inl hka)
    have hhit : renameHit [A, B] t = true := by
      simp [renameHit, hskip, hdesc, hka]
    rw [if_pos hhit]
    have hit' := itemName_rewriteTx nn nu t hC
    have hBA : (A == B) = false := beq_eq_false_iff_ne.mpr hAB
    have haffC : affects (strUpper (strStrip nn)) (rewriteTx nn nu t) = typeAllowed t := by
      simp [affects, isSummaryName, hit', hCv, hCd, typeAllowed_rewriteTx]
    have hsumA : affects A t = typeAllowed t := by
      simp [affects, isSummaryName, hka, hAv, hAd]
    have hsumB : affects B t = false := by
      simp [affects, hka, hBA]
    rw [haffC, hsumA, hsumB, hf]
    simp
  · by_cases hkb : itemName t = B
    · obtain ⟨hdesc, hskip⟩ := hgood_t (Or.inr hkb)
      have hhit : renameHit [A, B] t = true := by
        simp [renameHit, hskip, hdesc, hkb]
      rw [if_pos hhit]
      have hit' := itemName_rewriteTx nn nu t hC
      have hAB' : (B == A) = false := beq_eq_false_iff_ne.mpr (fun hh => hAB hh.symm)
      have haffC : affects (strUpper (strStrip nn)) (rewriteTx nn nu t) = typeAllowed t := by
        simp [affects, isSummaryName, hit', hCv, hCd, typeAllowed_rewriteTx]
      have hsumB : affects B t = typeAllowed t := by
        simp [affects, isSummaryName, hkb, hBv, hBd]
      have hsumA : affects A t = false := by
        simp [affects, hkb, hAB']
      rw [haffC, hsumA, hsumB, hf]
      simp
    · have hnohit : renameHit [A, B] t = false := by
        cases hskip : renameSkip t with
        | true => simp [renameHit, hskip]
        | false =>
          cases hd : t.description with
          | none => simp [renameHit, hskip, hd]
          | some d =>
            have hdA : (d == A) = false := by
              rw [beq_eq_false_iff_ne]
              intro he
              apply hka
              rw [he] at hd
              simp [itemName, hd, orDefault, hA]
            have hdB : (d == B) = false := by
              rw [beq_eq_false_iff_ne]
              intro he
              apply hkb
              rw [he] at hd
              simp [itemName, hd, orDefault, hB]
            simp only [renameHit, hskip, hd, Bool.not_false, Bool.true_and,
              List.contains_cons, List.contains_nil, Bool.or_false, hdA, hdB]
      rw [hnohit]
      simp only [Bool.false_eq_true, if_false]
      have h1 : affects (strUpper (strStrip nn)) t = false := by
        have : (itemName t == strUpper (strStrip nn)) = false :=
          beq_eq_false_iff_ne.mpr hfresh_t
        simp [affects, this]
      have h2 : affects A t = false := by
        have : (itemName t == A) = false := beq_eq_false_iff_ne.mpr hka
        simp [affects, this]
      have h3 : affects B t = false := by
        have : (itemName t == B) = false := beq_eq_false_iff_ne.mpr hkb
        simp [affects, this]
      rw [h1, h2, h3]
      simp

theorem sum_transport (A B nn nu : String) (txs : List Tx)
    (hA : A ≠ "") (hB : B ≠ "") (hAB : A ≠ B)
    (hC : strUpper (strStrip nn) ≠ "")
    (hCv : strStarts (strUpper (strStrip nn)) "VENDA:" = false)
    (hCd : strStarts (strUpper (strStrip nn)) "DESP:" = false)
    (hAv : strStarts A "VENDA:" = false) (hAd : strStarts A "DESP:" = false)
    (hBv : strStarts B "VENDA:" = false) (hBd : strStarts B "DESP:" = false)
    (hgood : ∀ t ∈ txs, (itemName t = A ∨ itemName t = B) →
        t.description = some (itemName t) ∧ renameSkip t = false)
    (hfresh : ∀ t ∈ txs, itemName t ≠ strUpper (strStrip nn)) :
    sumQty (strUpper (strStrip nn))
        (txs.map (fun t => if renameHit [A, B] t = true then rewriteTx nn nu t else t))
      = sumQty A txs + sumQty B txs
    ∧ sumTot (strUpper (strStrip nn))
        (txs.map (fun t => if renameHit [A, B] t = true then rewriteTx nn nu t else t))
      = sumTot A txs + sumTot B txs := by
  induction txs with
  | nil => simp [sumQty, sumTot]
  | cons t rest ih =>
    obtain ⟨ihq, iht⟩ := ih (fun u hu => hgood u (List.mem_cons_of_mem t hu))
      (fun u hu => hfresh u (List.mem_cons_of_mem t hu))
    have hgt := hgood t (List.mem_cons_self t rest)
    have hft := hfresh t (List.mem_cons_self t rest)
    rw [List.map_cons]
    constructor
    · simp only [sumQty]
      rw [ihq, head_transport A B nn nu t qtyDelta (qtyDelta_rewriteTx nn nu t)
        hA hB hAB hC hCv hCd hAv hAd hBv hBd hgt hft]
      ring
    · simp only [sumTot]
      rw [iht, head_transport A B nn nu t (fun u => toNumOr0 u.total)
        rfl hA hB hAB hC hCv hCd hAv hAd hBv hBd hgt hft]
      ring

theorem qtdOf_estoqueOf (txs : List Tx) (k : String) :
    qtdOf (estoqueOf txs) k = sumQty k txs := by
  show qtdOf (txs.foldl stepTx []) k = _
  rw [qtdOf_foldl, qtdOf_none [] k rfl, zero_add]

theorem custoOf_estoqueOf (txs : List Tx) (k : String)
    (hincr : ∀ t ∈ txs, affects k t = true → isIncr t = true) :
    custoOf (estoqueOf txs) k = sumTot k txs := by
  show custoOf (txs.foldl stepTx []) k = _
  rw [custoOf_foldl txs [] k hincr, custoOf_none [] k rfl, zero_add]

/-- C5 counterexample: rename-merge does not preserve the accumulated cost
total in general.  Ledger: buy 10 of A for 10, buy 10 of B for 30, then sell
5 of A.  Before the rename, cost(A) = 10 - 5*1 = 5 and cost(B) = 30, so the
claimed sum is 35.  After renaming the aliases A and B to C, the sale is
valued at the merged average 2, leaving cost(C) = 40 - 5*2 = 30 which
differs from 35 (the quantities do merge: 15 = 5 + 10). -/
theorem rename_merge_cost_counterexample :
    custoOf (estoqueOf (update_product_name
        [{ id := some "1", type := some "compra", description := some "A",
           qty := some (.vnum 10), total := some (.vnum 10) },
         { id := some "2", type := some "compra", description := some "B",
           qty := some (.vnum 10), total := some (.vnum 30) },
         { id := some "3", type := some "venda", description := some "A",
           qty := some (.vnum 5) }] ["A", "B"] "C" "UN").1) "C" = 30
    ∧ custoOf (estoqueOf
        [{ id := some "1", type := some "compra", description := some "A",
           qty := some (.vnum 10), total := some (.vnum 10) },
         { id := some "2", type := some "compra", description := some "B",
           qty := some (.vnum 10), total := some (.vnum 30) },
         { id := some "3", type := some "venda", description := some "A",
           qty := some (.vnum 5) }]) "A"
      + custoOf (estoqueOf
        [{ id := some "1", type := some "compra", description := some "A",
           qty := some (.vnum 10), total := some (.vnum 10) },
         { id := some "2", type := some "compra", description := some "B",
           qty := some (.vnum 10), total := some (.vnum 30) },
         { id := some "3", type := some "venda", description := some "A",
           qty := some (.vnum 5) }]) "B" = 35
    ∧ (30 : ℚ) ≠ 35 := by
  refine ⟨?_, ?_, by norm_num⟩
  · norm_num +decide [update_product_name, rename_step, renameHit, renameSkip, rewriteTx,
      upsert_item, strUpper, strStrip, isWS, custoOf, estoqueOf, stepTx, isSummaryName,
      itemName, orDefault, strStarts, typeAllowed, allowedTypes, toNumOr0, getAcc, setAcc,
      txUnit, isIncr, isDecr, increasingTypes, decreasingTypes, incUpdate, decUpdate,
      recomputeAvg, List.isPrefixOf]
  · norm_num +decide [custoOf, estoqueOf, stepTx, isSummaryName, itemName, orDefault,
      strStarts, typeAllowed, allowedTypes, toNumOr0, getAcc, setAcc, txUnit, isIncr,
      isDecr, increasingTypes, decreasingTypes, incUpdate, decUpdate, recomputeAvg,
      List.isPrefixOf]

/-- C5 amended.  For a ledger with unique record ids in which every
transaction keyed to the distinct plain item names A or B carries that name
as its description and is not of a skipped type (recipe or
sale-of-product), and the canonical name C produced by the rename is a
fresh plain name: after update_product_name rewrites the aliases A and B to
C, the quantity of C recomputed from the rewritten ledger always equals the
sum of the pre-rename quantities of A and B; and when every transaction
keyed to A or B is increasing (purchase or manual-adjustment), the
accumulated cost total of C also equals the sum of the pre-rename cost
totals — but not in general, see the counterexample with an interleaved
decrease. -/
theorem rename_merge_valuation (store : List Tx) (A B nn nu : String)
    (hnd : (store.map (fun u => u.id)).Nodup)
    (hA : A ≠ "") (hB : B ≠ "") (hAB : A ≠ B)
    (hC : strUpper (strStrip nn) ≠ "")
    (hCv : strStarts (strUpper (strStrip nn)) "VENDA:" = false)
    (hCd : strStarts (strUpper (strStrip nn)) "DESP:" = false)
    (hAv : strStarts A "VENDA:" = false) (hAd : strStarts A "DESP:" = false)
    (hBv : strStarts B "VENDA:" = false) (hBd : strStarts B "DESP:" = false)
    (hgood : ∀ t ∈ store, (itemName t = A ∨ itemName t = B) →
        t.description = some (itemName t) ∧ renameSkip t = false)
    (hfresh : ∀ t ∈ store, itemName t ≠ strUpper (strStrip nn)) :
    qtdOf (estoqueOf (update_product_name store [A, B] nn nu).1) (strUpper (strStrip nn))
      = qtdOf (estoqueOf store) A + qtdOf (estoqueOf store) B
    ∧ ((∀ t ∈ store, (affects A t = true ∨ affects B t = true) → isIncr t = true) →
        custoOf (estoqueOf (update_product_name store [A, B] nn nu).1)
            (strUpper (strStrip nn))
          = custoOf (estoqueOf store) A + custoOf (estoqueOf store) B) := by
  rw [upn_fst store [A, B] nn nu hnd]
  obtain ⟨hq, ht⟩ := sum_transport A B nn nu store hA hB hAB hC hCv hCd hAv hAd hBv hBd
    hgood hfresh
  constructor
  · rw [qtdOf_estoqueOf, qtdOf_estoqueOf, qtdOf_estoqueOf, hq]
  · intro hinc
    have hincA : ∀ t ∈ store, affects A t = true → isIncr t = true :=
      fun t htm ha => hinc t htm (Or.inl ha)
    have hincB : ∀ t ∈ store, affects B t = true → isIncr t = true :=
      fun t htm hb => hinc t htm (Or.inr hb)
    have hincC : ∀ u ∈ store.map
        (fun t => if renameHit [A, B] t = true then rewriteTx nn nu t else t),
        affects (strUpper (strStrip nn)) u = true → isIncr u = true := by
      intro u hu haff
      obtain ⟨t, htm, rfl⟩ := List.mem_map.mp hu
      by_cases hhit : renameHit [A, B] t = true
      · rw [if_pos hhit] at haff ⊢
        rw [isIncr_rewriteTx]
        have hta : typeAllowed t = true := by
          simp only [affects, Bool.and_eq_true] at haff
          rw [← typeAllowed_rewriteTx nn nu t]
          exact haff.1.2
        rcases renameHit_item A B hA hB t hhit with hk | hk
        · exact hinc t htm (Or.inl (by simp [affects, isSummaryName, hk, hAv, hAd, hta]))
        · exact hinc t htm (Or.inr (by simp [affects, isSummaryName, hk, hBv, hBd, hta]))
      · rw [if_neg hhit] at haff ⊢
        exfalso
        simp only [affects, Bool.and_eq_true, beq_iff_eq] at haff
        exact hfresh t htm haff.2
    rw [custoOf_estoqueOf _ _ hincC, custoOf_estoqueOf _ _ hincA,
      custoOf_estoqueOf _ _ hincB, ht]

/-- Witness for C5 amended at a purchase-only ledger: buying 2 of A for 6
and 3 of B for 4, the rename of both aliases to C merges the valuation to
quantity 5 = 2 + 3 and cost 10 = 6 + 4. -/
theorem rename_merge_valuation_witness :
    qtdOf (estoqueOf (update_product_name
        [{ id := some "1", type := some "compra", description := some "A",
           qty := some (.vnum 2), total := some (.vnum 6) },
         { id := some "2", type := some "compra", description := some "B",
           qty := some (.vnum 3), total := some (.vnum 4) }] ["A", "B"] "C" "UN").1)
      (strUpper (strStrip "C"))
      = qtdOf (estoqueOf
          [{ id := some "1", type := some "compra", description := some "A",
             qty := some (.vnum 2), total := some (.vnum 6) },
           { id := some "2", type := some "compra", description := some "B",
             qty := some (.vnum 3), total := some (.vnum 4) }]) "A"
        + qtdOf (estoqueOf
          [{ id := some "1", type := some "compra", description := some "A",
             qty := some (.vnum 2), total := some (.vnum 6) },
           { id := some "2", type := some "compra", description := some "B",
             qty := some (.vnum 3), total := some (.vnum 4) }]) "B"
    ∧ custoOf (estoqueOf (update_product_name
        [{ id := some "1", type := some "compra", description := some "A",
           qty := some (.vnum 2), total := some (.vnum 6) },
         { id := some "2", type := some "compra", description := some "B",
           qty := some (.vnum 3), total := some (.vnum 4) }] ["A", "B"] "C" "UN").1)
      (strUpper (strStrip "C"))
      = custoOf (estoqueOf
          [{ id := some "1", type := some "compra", description := some "A",
             qty := some (.vnum 2), total := some (.vnum 6) },
           { id := some "2", type := some "compra", description := some "B",
             qty := some (.vnum 3), total := some (.vnum 4) }]) "A"
        + custoOf (estoqueOf
          [{ id := some "1", type := some "compra", description := some "A",
             qty := some (.vnum 2), total := some (.vnum 6) },
           { id := some "2", type := some "compra", description := some "B",
             qty := some (.vnum 3), total := some (.vnum 4) }]) "B" := by
  have h := rename_merge_valuation
    [{ id := some "1", type := some "compra", description := some "A",
       qty := some (.vnum 2), total := some (.vnum 6) },
     { id := some "2", type := some "compra", description := some "B",
       qty := some (.vnum 3), total := some (.vnum 4) }] "A" "B" "C" "UN"
    (by decide) (by decide) (by decide) (by decide) (by decide) (by decide) (by decide)
    (by decide) (by decide) (by decide) (by decide) (by decide) (by decide)
  exact ⟨h.1, h.2 (by decide)⟩

/-! The DataFrame layer: helper lemmas. -/

theorem runPd_append (ctx : ColCtx) (l1 l2 : List Tx) (est : EstoquePd) :
    runPd ctx (l1 ++ l2) est
      = match runPd ctx l1 est with
        | .error e => .error e
        | .ok e1 => runPd ctx l2 e1 := by
  induction l1 generalizing est with
  | nil => rfl
  | cons t rest ih =>
    cases h : itemNamePd ctx t with
    | error e => simp only [List.cons_append, runPd, h]
    | ok item =>
      simp only [List.cons_append, runPd, h]
      exact ih _

theorem runPd_ok (ctx : ColCtx) (l : List Tx) (est : EstoquePd)
    (h : ∀ t ∈ l, itemResolves ctx t = true) :
    ∃ e, runPd ctx l est = .ok e := by
  induction l generalizing est with
  | nil => exact ⟨est, rfl⟩
  | cons t rest ih =>
    have ht := h t (List.mem_cons_self t rest)
    cases hi : itemNamePd ctx t with
    | error e => simp [itemResolves, hi] at ht
    | ok item =>
      obtain ⟨e, he⟩ := ih (stepPd ctx item t est) (fun u hu => h u (List.mem_cons_of_mem t hu))
      refine ⟨e, ?_⟩
      simp only [runPd, hi]
      exact he

theorem itemNamePd_qty (ctx : ColCtx) (t : Tx) (q : Option PyVal) :
    itemNamePd ctx { t with qty := q } = itemNamePd ctx t := rfl

theorem itemNamePd_total (ctx : ColCtx) (t : Tx) (v : Option PyVal) :
    itemNamePd ctx { t with total := v } = itemNamePd ctx t := rfl

theorem stepPd_qty_congr (ctx : ColCtx) (item : String) (t : Tx) (q : Option PyVal)
    (est : EstoquePd)
    (h : coercePd (numCell ctx.qty_has ctx.qty_numeric q)
       = coercePd (numCell ctx.qty_has ctx.qty_numeric t.qty)) :
    stepPd ctx item { t with qty := q } est = stepPd ctx item t est := by
  have e1 : ({ t with qty := q } : Tx).qty = q := rfl
  have e2 : typeAllowed { t with qty := q } = typeAllowed t := rfl
  have e3 : isIncr { t with qty := q } = isIncr t := rfl
  have e4 : isDecr { t with qty := q } = isDecr t := rfl
  have e5 : unitPd ctx { t with qty := q } = unitPd ctx t := rfl
  have e6 : ({ t with qty := q } : Tx).total = t.total := rfl
  simp only [stepPd, e1, e2, e3, e4, e5, e6, h]

theorem stepPd_total_congr (ctx : ColCtx) (item : String) (t : Tx) (v : Option PyVal)
    (est : EstoquePd)
    (h : coercePd (numCell ctx.total_has ctx.total_numeric v)
       = coercePd (numCell ctx.total_has ctx.total_numeric t.total)) :
    stepPd ctx item { t with total := v } est = stepPd ctx item t est := by
  have e1 : ({ t with total := v } : Tx).total = v := rfl
  have e2 : typeAllowed { t with total := v } = typeAllowed t := rfl
  have e3 : isIncr { t with total := v } = isIncr t := rfl
  have e4 : isDecr { t with total := v } = isDecr t := rfl
  have e5 : unitPd ctx { t with total := v } = unitPd ctx t := rfl
  have e6 : ({ t with total := v } : Tx).qty = t.qty := rfl
  simp only [stepPd, e1, e2, e3, e4, e5, e6, h]

theorem coercePd_str0 : coercePd (.cstr "0") = .fin 0 := by
  norm_num +decide [coercePd, pyFloat?, duSpan, duValid, noDDUnd, duDigits, digitsVal,
    mantVal, strStrip, isWS]

theorem colCtx_qty_subst (l1 l2 : List Tx) (t : Tx)
    (hz : (∃ s, t.qty = some (.vstr s))
        ∨ (t.qty = some .vnone ∧ numericCol (fun u => u.qty) (l1 ++ t :: l2) = false)) :
    colCtx (l1 ++ { t with qty := some (.vstr "0") } :: l2) = colCtx (l1 ++ t :: l2) := by
  rcases hz with ⟨s, hs⟩ | ⟨hv, hnc⟩
  · simp only [colCtx, numericCol, List.any_append, List.any_cons, ColCtx.mk.injEq]
    refine ⟨?_, ?_, trivial, trivial, trivial, trivial, trivial, trivial⟩ <;>
      simp [hs, hasNum, hasStr]
  · simp only [numericCol, List.any_append, List.any_cons] at hnc
    rw [hv] at hnc
    simp only [hasNum, hasStr, Bool.false_or] at hnc
    simp only [colCtx, numericCol, List.any_append, List.any_cons, ColCtx.mk.injEq]
    refine ⟨?_, ?_, trivial, trivial, trivial, trivial, trivial, trivial⟩
    · simp [hv]
    · rw [hv]
      simp only [hasNum, hasStr, Bool.false_or, Bool.true_or, Bool.or_true, Bool.not_true,
        Bool.and_false]
      exact hnc.symm

theorem colCtx_total_subst (l1 l2 : List Tx) (t : Tx)
    (hz : (∃ s, t.total = some (.vstr s))
        ∨ (t.total = some .vnone ∧ numericCol (fun u => u.total) (l1 ++ t :: l2) = false)) :
    colCtx (l1 ++ { t with total := some (.vstr "0") } :: l2) = colCtx (l1 ++ t :: l2) := by
  rcases hz with ⟨s, hs⟩ | ⟨hv, hnc⟩
  · simp only [colCtx, numericCol, List.any_append, List.any_cons, ColCtx.mk.injEq]
    refine ⟨trivial, trivial, ?_, ?_, trivial, trivial, trivial, trivial⟩ <;>
      simp [hs, hasNum, hasStr]
  · simp only [numericCol, List.any_append, List.any_cons] at hnc
    rw [hv] at hnc
    simp only [hasNum, hasStr, Bool.false_or] at hnc
    simp only [colCtx, numericCol, List.any_append, List.any_cons, ColCtx.mk.injEq]
    refine ⟨trivial, trivial, ?_, ?_, trivial, trivial, trivial, trivial⟩
    · simp [hv]
    · rw [hv]
      simp only [hasNum, hasStr, Bool.false_or, Bool.true_or, Bool.or_true, Bool.not_true,
        Bool.and_false]
      exact hnc.symm

theorem pd_qty_zero_subst (l1 l2 : List Tx) (t : Tx) (z : Bool)
    (hz : (∃ s, t.qty = some (.vstr s) ∧ (s = "" ∨ pyFloat? s = none))
        ∨ (t.qty = some .vnone ∧ numericCol (fun u => u.qty) (l1 ++ t :: l2) = false)) :
    get_inventory_dataframe_pd (l1 ++ { t with qty := some (.vstr "0") } :: l2) z
      = get_inventory_dataframe_pd (l1 ++ t :: l2) z := by
  have hctx : colCtx (l1 ++ { t with qty := some (.vstr "0") } :: l2)
      = colCtx (l1 ++ t :: l2) := by
    refine colCtx_qty_subst l1 l2 t ?_
    rcases hz with ⟨s, hs, _⟩ | h
    · exact Or.inl ⟨s, hs⟩
    · exact Or.inr h
  have hco : coercePd (numCell (colCtx (l1 ++ t :: l2)).qty_has
        (colCtx (l1 ++ t :: l2)).qty_numeric (some (.vstr "0")))
      = coercePd (numCell (colCtx (l1 ++ t :: l2)).qty_has
        (colCtx (l1 ++ t :: l2)).qty_numeric t.qty) := by
    rcases hz with ⟨s, hs, hbad⟩ | ⟨hv, hnc⟩
    · rw [hs]
      rw [show numCell (colCtx (l1 ++ t :: l2)).qty_has
            (colCtx (l1 ++ t :: l2)).qty_numeric (some (.vstr "0")) = .cstr "0" from rfl,
          show numCell (colCtx (l1 ++ t :: l2)).qty_has
            (colCtx (l1 ++ t :: l2)).qty_numeric (some (.vstr s)) = .cstr s from rfl,
          coercePd_str0]
      rcases hbad with hb | hb
      · simp [coercePd, hb]
      · by_cases hse : s = "" <;> simp [coercePd, hse, hb]
    · have hN : (colCtx (l1 ++ t :: l2)).qty_numeric = false := hnc
      rw [hv, hN]
      rw [show numCell (colCtx (l1 ++ t :: l2)).qty_has false (some (.vstr "0"))
            = .cstr "0" from rfl,
          show numCell (colCtx (l1 ++ t :: l2)).qty_has false (some .vnone)
            = .cnone from rfl,
          coercePd_str0]
      rfl
  have hrun : runPd (colCtx (l1 ++ t :: l2)) (l1 ++ { t with qty := some (.vstr "0") } :: l2) []
      = runPd (colCtx (l1 ++ t :: l2)) (l1 ++ t :: l2) [] := by
    rw [runPd_append, runPd_append]
    cases runPd (colCtx (l1 ++ t :: l2)) l1 [] with
    | error e => rfl
    | ok e1 =>
      simp only [runPd, itemNamePd_qty]
      cases h2 : itemNamePd (colCtx (l1 ++ t :: l2)) t with
      | error e => rfl
      | ok item =>
        show runPd (colCtx (l1 ++ t :: l2)) l2
            (stepPd (colCtx (l1 ++ t :: l2)) item { t with qty := some (.vstr "0") } e1)
          = runPd (colCtx (l1 ++ t :: l2)) l2 (stepPd (colCtx (l1 ++ t :: l2)) item t e1)
        rw [stepPd_qty_congr (colCtx (l1 ++ t :: l2)) item t (some (.vstr "0")) e1 hco]
  unfold get_inventory_dataframe_pd
  rw [hctx, hrun]

theorem pd_total_zero_subst (l1 l2 : List Tx) (t : Tx) (z : Bool)
    (hz : (∃ s, t.total = some (.vstr s) ∧ (s = "" ∨ pyFloat? s = none))
        ∨ (t.total = some .vnone ∧ numericCol (fun u => u.total) (l1 ++ t :: l2) = false)) :
    get_inventory_dataframe_pd (l1 ++ { t with total := some (.vstr "0") } :: l2) z
      = get_inventory_dataframe_pd (l1 ++ t :: l2) z := by
  have hctx : colCtx (l1 ++ { t with total := some (.vstr "0") } :: l2)
      = colCtx (l1 ++ t :: l2) := by
    refine colCtx_total_subst l1 l2 t ?_
    rcases hz with ⟨s, hs, _⟩ | h
    · exact Or.inl ⟨s, hs⟩
    · exact Or.inr h
  have hco : coercePd (numCell (colCtx (l1 ++ t :: l2)).total_has
        (colCtx (l1 ++ t :: l2)).total_numeric (some (.vstr "0")))
      = coercePd (numCell (colCtx (l1 ++ t :: l2)).total_has
        (colCtx (l1 ++ t :: l2)).total_numeric t.total) := by
    rcases hz with ⟨s, hs, hbad⟩ | ⟨hv, hnc⟩
    · rw [hs]
      rw [show numCell (colCtx (l1 ++ t :: l2)).total_has
            (colCtx (l1 ++ t :: l2)).total_numeric (some (.vstr "0")) = .cstr "0" from rfl,
          show numCell (colCtx (l1 ++ t :: l2)).total_has
            (colCtx (l1 ++ t :: l2)).total_numeric (some (.vstr s)) = .cstr s from rfl,
          coercePd_str0]
      rcases hbad with hb | hb
      · simp [coercePd, hb]
      · by_cases hse : s = "" <;> simp [coercePd, hse, hb]
    · have hN : (colCtx (l1 ++ t :: l2)).total_numeric = false := hnc
      rw [hv, hN]
      rw [show numCell (colCtx (l1 ++ t :: l2)).total_has false (some (.vstr "0"))
            = .cstr "0" from rfl,
          show numCell (colCtx (l1 ++ t :: l2)).total_has false (some .vnone)
            = .cnone from rfl,
          coercePd_str0]
      rfl
  have hrun : runPd (colCtx (l1 ++ t :: l2))
        (l1 ++ { t with total := some (.vstr "0") } :: l2) []
      = runPd (colCtx (l1 ++ t :: l2)) (l1 ++ t :: l2) [] := by
    rw [runPd_append, runPd_append]
    cases runPd (colCtx (l1 ++ t :: l2)) l1 [] with
    | error e => rfl
    | ok e1 =>
      simp only [runPd, itemNamePd_total]
      cases h2 : itemNamePd (colCtx (l1 ++ t :: l2)) t with
      | error e => rfl
      | ok item =>
        show runPd (colCtx (l1 ++ t :: l2)) l2
            (stepPd (colCtx (l1 ++ t :: l2)) item { t with total := some (.vstr "0") } e1)
          = runPd (colCtx (l1 ++ t :: l2)) l2 (stepPd (colCtx (l1 ++ t :: l2)) item t e1)
        rw [stepPd_total_congr (colCtx (l1 ++ t :: l2)) item t (some (.vstr "0")) e1 hco]
  unfold get_inventory_dataframe_pd
  rw [hctx, hrun]

/-- C8, counterexample.  A missing qty key is not treated as 0 when any
other record carries the qty column: pd.DataFrame materializes the hole as
NaN, NaN or 0 is NaN since NaN is truthy, float(NaN) is NaN and no
exception fires, and the NaN quantity propagates into an emitted row that
the treated-as-0 reading would have filtered out.  With purchase A (qty 5,
total 10) next to purchase B whose qty key is absent (total 3), the
valuation emits a NaN-quantity row for B; a present None qty behaves the
same way, because the numeric-dtype column turns None into NaN; while the
same ledger with B's qty as the number 0 emits no row for B at all.  The
outputs differ, so the missing and None cases of the claim fail. -/
theorem missing_numeric_field_not_treated_as_zero :
    get_inventory_dataframe_pd
      [{ type := some "compra", description := some "A", unit_measure := some "UN",
         qty := some (.vnum 5), total := some (.vnum 10) },
       { type := some "compra", description := some "B", unit_measure := some "UN",
         total := some (.vnum 3) }] false
      = .ok [⟨"A", .sstr "UN", .fin 5, .fin 2, .fin 10⟩,
             ⟨"B", .sstr "UN", .nan, .fin 0, .nan⟩]
    ∧ get_inventory_dataframe_pd
      [{ type := some "compra", description := some "A", unit_measure := some "UN",
         qty := some (.vnum 5), total := some (.vnum 10) },
       { type := some "compra", description := some "B", unit_measure := some "UN",
         qty := some .vnone, total := some (.vnum 3) }] false
      = .ok [⟨"A", .sstr "UN", .fin 5, .fin 2, .fin 10⟩,
             ⟨"B", .sstr "UN", .nan, .fin 0, .nan⟩]
    ∧ get_inventory_dataframe_pd
      [{ type := some "compra", description := some "A", unit_measure := some "UN",
         qty := some (.vnum 5), total := some (.vnum 10) },
       { type := some "compra", description := some "B", unit_measure := some "UN",
         qty := some (.vnum 0), total := some (.vnum 3) }] false
      = .ok [⟨"A", .sstr "UN", .fin 5, .fin 2, .fin 10⟩]
    ∧ get_inventory_dataframe_pd
      [{ type := some "compra", description := some "A", unit_measure := some "UN",
         qty := some (.vnum 5), total := some (.vnum 10) },
       { type := some "compra", description := some "B", unit_measure := some "UN",
         total := some (.vnum 3) }] false
      ≠ get_inventory_dataframe_pd
      [{ type := some "compra", description := some "A", unit_measure := some "UN",
         qty := some (.vnum 5), total := some (.vnum 10) },
       { type := some "compra", description := some "B", unit_measure := some "UN",
         qty := some (.vnum 0), total := some (.vnum 3) }] false := by
  have h1 : get_inventory_dataframe_pd
      [{ type := some "compra", description := some "A", unit_measure := some "UN",
         qty := some (.vnum 5), total := some (.vnum 10) },
       { type := some "compra", description := some "B", unit_measure := some "UN",
         total := some (.vnum 3) }] false
      = .ok [⟨"A", .sstr "UN", .fin 5, .fin 2, .fin 10⟩,
             ⟨"B", .sstr "UN", .nan, .fin 0, .nan⟩] := by
    norm_num +decide [get_inventory_dataframe_pd, runPd, stepPd, itemNamePd, itemFallback,
      strCell, numCell, coercePd, colCtx, numericCol, hasNum, hasStr, unitPd, getAccPd,
      setAccPd, pfAdd, pfSub, pfNeg, pfMul, pfDiv, pfDivTry, pfGtZero, pfNeZero,
      typeAllowed, allowedTypes, isIncr, isDecr, increasingTypes, decreasingTypes,
      strStarts, List.isPrefixOf, List.filterMap_cons, List.filterMap_nil,
      List.any_cons, List.any_nil]
  have h3 : get_inventory_dataframe_pd
      [{ type := some "compra", description := some "A", unit_measure := some "UN",
         qty := some (.vnum 5), total := some (.vnum 10) },
       { type := some "compra", description := some "B", unit_measure := some "UN",
         qty := some (.vnum 0), total := some (.vnum 3) }] false
      = .ok [⟨"A", .sstr "UN", .fin 5, .fin 2, .fin 10⟩] := by
    norm_num +decide [get_inventory_dataframe_pd, runPd, stepPd, itemNamePd, itemFallback,
      strCell, numCell, coercePd, colCtx, numericCol, hasNum, hasStr, unitPd, getAccPd,
      setAccPd, pfAdd, pfSub, pfNeg, pfMul, pfDiv, pfDivTry, pfGtZero, pfNeZero,
      typeAllowed, allowedTypes, isIncr, isDecr, increasingTypes, decreasingTypes,
      strStarts, List.isPrefixOf, List.filterMap_cons, List.filterMap_nil,
      List.any_cons, List.any_nil]
  refine ⟨h1, ?_, h3, ?_⟩
  · norm_num +decide [get_inventory_dataframe_pd, runPd, stepPd, itemNamePd, itemFallback,
      strCell, numCell, coercePd, colCtx, numericCol, hasNum, hasStr, unitPd, getAccPd,
      setAccPd, pfAdd, pfSub, pfNeg, pfMul, pfDiv, pfDivTry, pfGtZero, pfNeZero,
      typeAllowed, allowedTypes, isIncr, isDecr, increasingTypes, decreasingTypes,
      strStarts, List.isPrefixOf, List.filterMap_cons, List.filterMap_nil,
      List.any_cons, List.any_nil]
  · rw [h1, h3]
    simp

/-- C8, amended.  The valuation never raises on malformed numeric fields:
whenever every row's item expression resolves, the whole valuation returns
a result, whatever the qty and total fields hold.  A qty or total is
genuinely treated as 0 exactly in these cases: a present string that is
empty or that float() cannot parse; a present None in a column that is not
of numeric dtype; and an absent key whose column is absent from the whole
frame.  A present zero-class string field may even be replaced by the
literal string 0 without changing the valuation output.  But the claim's
remaining cases are not treated as 0: an absent key whose column exists in
the frame, and a present None in a numeric-dtype column, are materialized
as NaN, which is not 0 and propagates; and a nonempty string that float()
accepts (including exponent, underscore, inf and nan spellings) contributes
its parsed value. -/
theorem malformed_numeric_fields_amended :
    (∀ (txs : List Tx) (z : Bool),
        (∀ t ∈ txs, itemResolves (colCtx txs) t = true) →
        ∃ rows, get_inventory_dataframe_pd txs z = .ok rows)
    ∧ (∀ b : Bool, ∀ s : String, s ≠ "" → pyFloat? s = none →
        coercePd (numCell b true (some (.vstr s))) = .fin 0
        ∧ coercePd (numCell b false (some (.vstr s))) = .fin 0)
    ∧ (∀ b n : Bool, coercePd (numCell b n (some (.vstr ""))) = .fin 0)
    ∧ (∀ b : Bool, coercePd (numCell b false (some .vnone)) = .fin 0)
    ∧ (∀ n : Bool, coercePd (numCell false n none) = .fin 0)
    ∧ (∀ n : Bool, coercePd (numCell true n none) = .nan)
    ∧ (∀ b : Bool, coercePd (numCell b true (some .vnone)) = .nan)
    ∧ (∀ b n : Bool, ∀ s : String, ∀ f : PF, s ≠ "" → pyFloat? s = some f →
        coercePd (numCell b n (some (.vstr s))) = f)
    ∧ pyFloat? "1e5" = some (.fin 100000)
    ∧ pyFloat? "1_000" = some (.fin 1000)
    ∧ pyFloat? "inf" = some .pinf
    ∧ pyFloat? "nan" = some .nan
    ∧ (∀ (l1 l2 : List Tx) (t : Tx) (z : Bool),
        ((∃ s, t.qty = some (.vstr s) ∧ (s = "" ∨ pyFloat? s = none))
          ∨ (t.qty = some .vnone
              ∧ numericCol (fun u => u.qty) (l1 ++ t :: l2) = false)) →
        get_inventory_dataframe_pd (l1 ++ { t with qty := some (.vstr "0") } :: l2) z
          = get_inventory_dataframe_pd (l1 ++ t :: l2) z)
    ∧ (∀ (l1 l2 : List Tx) (t : Tx) (z : Bool),
        ((∃ s, t.total = some (.vstr s) ∧ (s = "" ∨ pyFloat? s = none))
          ∨ (t.total = some .vnone
              ∧ numericCol (fun u => u.total) (l1 ++ t :: l2) = false)) →
        get_inventory_dataframe_pd (l1 ++ { t with total := some (.vstr "0") } :: l2) z
          = get_inventory_dataframe_pd (l1 ++ t :: l2) z) := by
  refine ⟨?_, ?_, ?_, ?_, ?_, ?_, ?_, ?_, ?_, ?_, ?_, ?_, ?_, ?_⟩
  · intro txs z h
    obtain ⟨e, he⟩ := runPd_ok (colCtx txs) txs [] h
    exact ⟨_, by unfold get_inventory_dataframe_pd; rw [he]⟩
  · intro b s hne hp
    constructor <;> simp [numCell, coercePd, hne, hp]
  · intro b n
    simp [numCell, coercePd]
  · intro b
    simp [numCell, coercePd]
  · intro n
    simp [numCell, coercePd]
  · intro n
    simp [numCell, coercePd]
  · intro b
    simp [numCell, coercePd]
  · intro b n s f hne hp
    simp [numCell, coercePd, hne, hp]
  · norm_num +decide [pyFloat?, duSpan, duValid, noDDUnd, duDigits, digitsVal,
      parseExpPart, mantVal, strStrip, isWS,
      show Char.toNat '1' = 49 from rfl, show Char.toNat '5' = 53 from rfl]
  · norm_num +decide [pyFloat?, duSpan, duValid, noDDUnd, duDigits, digitsVal,
      parseExpPart, mantVal, strStrip, isWS,
      show Char.toNat '1' = 49 from rfl, show Char.toNat '0' = 48 from rfl]
  · norm_num +decide [pyFloat?, duSpan, duValid, noDDUnd, duDigits, digitsVal,
      parseExpPart, mantVal, strStrip, isWS]
  · norm_num +decide [pyFloat?, duSpan, duValid, noDDUnd, duDigits, digitsVal,
      parseExpPart, mantVal, strStrip, isWS]
  · exact pd_qty_zero_subst
  · exact pd_total_zero_subst

/-- Witness for C8: a purchase with an unparseable string qty and an absent
total key (the only record, so both columns behave as the record-level
default) completes and returns; the parse-failure coercion on a single
field is the number 0; and replacing an unparseable string qty by the
string 0 leaves a concrete valuation unchanged. -/
theorem malformed_numeric_fields_amended_witness :
    (∃ rows,
      get_inventory_dataframe_pd
        [{ type := some "compra", description := some "FARINHA",
           qty := some (.vstr "abc"), total := none }] false = .ok rows)
    ∧ coercePd (numCell true true (some (.vstr "abc"))) = .fin 0
    ∧ get_inventory_dataframe_pd
        [{ type := some "compra", description := some "FARINHA",
           qty := some (.vstr "0"), total := some (.vnum 4) }] false
      = get_inventory_dataframe_pd
        [{ type := some "compra", description := some "FARINHA",
           qty := some (.vstr "abc"), total := some (.vnum 4) }] false :=
  ⟨malformed_numeric_fields_amended.1
      [{ type := some "compra", description := some "FARINHA",
         qty := some (.vstr "abc"), total := none }] false (by decide),
   (malformed_numeric_fields_amended.2.1 true "abc" (by decide) (by decide)).1,
   malformed_numeric_fields_amended.2.2.2.2.2.2.2.2.2.2.2.2.1 [] []
     { type := some "compra", description := some "FARINHA",
       qty := some (.vstr "abc"), total := some (.vnum 4) } false
     (Or.inl ⟨"abc", rfl, Or.inr (by decide)⟩)⟩

end LucroCerto
